import Mathlib

/-
  Verification of the raydb mutation-and-query layer
  (python/raydb/builders.py and python/raydb/traversal.py).

  The storage engine behind the builders is external to the repository
  (spec section 6 lists the interface it must expose); it is modelled here
  as a concrete store with a call trace and an injectable failure point, so
  that the builders' transaction, validation and rollback behaviour can be
  proved for every possible engine failure.  The static schema metadata
  (NodeDef / EdgeDef from the schema module, also outside src) is modelled
  from its use sites: a name, an ordered property-name-to-type mapping and,
  for node types, a key-formatting function.
-/

namespace RayDb

/-- Property type tags of the schema layer (PropDef.type in the source:
the strings "string", "int", "float", "bool", "vector"). -/
inductive PropType where
  | string
  | int
  | float
  | bool
  | vector
deriving DecidableEq, Repr

/-- Python-side values that flow through the builders.  Floats are modelled
as integers: no claim concerns float arithmetic, only which tag a value
carries. -/
inductive PyVal where
  | none
  | str (s : String)
  | int (n : Int)
  | float (q : Int)
  | bool (b : Bool)
  | vec (xs : List Int)
deriving DecidableEq, Repr

/-- Tagged storage values (PropValue in the source): the engine-side
representation produced by to_prop_value. -/
inductive StoredVal where
  | null
  | str (s : String)
  | int (n : Int)
  | float (q : Int)
  | bool (b : Bool)
deriving DecidableEq, Repr

/-- Failures of this layer and of the engine.  ValueError raised by the
builders (validation / not-found / unsupported value) is `validation`;
a duplicate key on create_node is `conflict`; `storage n` is an injected
engine failure at call number `n`. -/
inductive Err where
  | validation (msg : String)
  | conflict (key : String)
  | storage (n : Nat)
deriving DecidableEq, Repr

/-- Python str() on the values above (model). -/
def pyToStr : PyVal → String
  | .none => "None"
  | .str s => s
  | .int n => toString n
  | .float q => toString q
  | .bool b => if b then "True" else "False"
  | .vec _ => "[vector]"

/-- Python int() on the values above: fails (ValueError) on an unparsable
string and on a vector. -/
def pyToInt : PyVal → Except Err Int
  | .none => .error (.validation "int of None")
  | .str s =>
    match s.toInt? with
    | some n => .ok n
    | none => .error (.validation "invalid literal for int")
  | .int n => .ok n
  | .float q => .ok q
  | .bool b => .ok (if b then 1 else 0)
  | .vec _ => .error (.validation "int of vector")

/-- Python float() (model: floats carried as integers). -/
def pyToFloat : PyVal → Except Err Int
  | .none => .error (.validation "float of None")
  | .str s =>
    match s.toInt? with
    | some n => .ok n
    | none => .error (.validation "invalid literal for float")
  | .int n => .ok n
  | .float q => .ok q
  | .bool b => .ok (if b then 1 else 0)
  | .vec _ => .error (.validation "float of vector")

/-- Python bool() on the values above (total). -/
def pyToBool : PyVal → Bool
  | .none => false
  | .str s => s ≠ ""
  | .int n => n ≠ 0
  | .float q => q ≠ 0
  | .bool b => b
  | .vec xs => xs ≠ []

/-- to_prop_value from builders.py: a None value encodes to the explicit
null tag; otherwise the value is coerced according to the declared property
type; a vector-typed property cannot go through this generic path
(ValueError in the source). -/
def toPropValue (t : PropType) (v : PyVal) : Except Err StoredVal :=
  if v = PyVal.none then .ok .null
  else
    match t with
    | .string => .ok (.str (pyToStr v))
    | .int => (pyToInt v).map .int
    | .float => (pyToFloat v).map .float
    | .bool => .ok (.bool (pyToBool v))
    | .vector => .error (.validation "Vector properties should be set using set_node_vector")

/-- from_prop_value from builders.py: decode a tagged storage value back to
a Python value (total over all non-vector tags). -/
def fromPropValue : StoredVal → PyVal
  | .null => .none
  | .str s => .str s
  | .int n => .int n
  | .float q => .float q
  | .bool b => .bool b

/-- Association-list lookup (model of Python dict indexing / .get). -/
def assocGet {ν : Type} : List (String × ν) → String → Option ν
  | [], _ => Option.none
  | (k, v) :: rest, key => if k = key then some v else assocGet rest key

/-- Remove a key from an association list (model of dict.pop). -/
def assocDel {ν : Type} (l : List (String × ν)) (key : String) : List (String × ν) :=
  l.filter (fun p => p.1 ≠ key)

/-- Node type descriptor (NodeDef of the schema module, modelled from its
use sites in builders.py and traversal.py: a name, a key-formatting
function and an ordered property-name-to-type mapping). -/
structure NodeDefM where
  name : String
  keyFn : PyVal → String
  props : List (String × PropType)

/-- Edge type descriptor (EdgeDef of the schema module): a name, an
ordered property mapping and the memoized resolved etype id
(the private etype-id cache read by the traversal engine). -/
structure EdgeDefM where
  name : String
  props : List (String × PropType)
  etypeId : Option Nat
deriving Repr

/-- A record passed to insert / update: an ordered mapping from field name
to value (model of a Python dict, so keys are unique in practice). -/
abbrev RecordM := List (String × PyVal)

/-- Node handle (NodeRef of builders.py): internal id, full key, schema
binding and the materialized property mapping. -/
structure NodeRefM where
  id : Int
  key : String
  nodeDef : NodeDefM
  props : RecordM

-- ============================================================================
-- Storage engine model (external collaborator, spec section 6)
-- ============================================================================

/-- Keyed node-property storage: ((node id, prop key id), value). -/
abbrev NodePropsM := List ((Int × Nat) × StoredVal)

/-- Keyed edge-property storage: ((src, etype id, dst, prop key id), value). -/
abbrev EdgePropsM := List ((Int × Nat × Int × Nat) × StoredVal)

/-- Modelled from the spec: the storage engine state behind the Database
handle (section 6).  Nodes are (id, key) pairs in creation order with
unique keys enforced by createNode; edges are (src, etypeId, dst) triples
in insertion order (parallel edges may repeat). -/
structure Store where
  nodes : List (Int × String)
  nextId : Int
  nodeProps : NodePropsM
  edges : List (Int × Nat × Int)
  edgeProps : EdgePropsM
deriving DecidableEq, Repr

/-- Set a key in a keyed list, replacing an existing entry. -/
def keyedSet {κ ν : Type} [DecidableEq κ] : List (κ × ν) → κ → ν → List (κ × ν)
  | [], k, v => [(k, v)]
  | (k0, v0) :: rest, k, v =>
    if k0 = k then (k, v) :: rest else (k0, v0) :: keyedSet rest k v

/-- Look up a key in a keyed list. -/
def keyedGet {κ ν : Type} [DecidableEq κ] : List (κ × ν) → κ → Option ν
  | [], _ => Option.none
  | (k0, v0) :: rest, k => if k0 = k then some v0 else keyedGet rest k

/-- Remove a key from a keyed list. -/
def keyedDel {κ ν : Type} [DecidableEq κ] (l : List (κ × ν)) (k : κ) : List (κ × ν) :=
  l.filter (fun p => p.1 ≠ k)

/-- Modelled from the spec: getNodeByKey (section 6). -/
def Store.getNodeByKey (s : Store) (key : String) : Option Int :=
  (s.nodes.find? (fun p => p.2 = key)).map (fun p => p.1)

/-- Modelled from the spec: the engine maps a node id to its key. -/
def Store.getNodeKey (s : Store) (id : Int) : Option String :=
  (s.nodes.find? (fun p => p.1 = id)).map (fun p => p.2)

/-- Modelled from the spec: createNode fails with Conflict on a duplicate
key, otherwise assigns a fresh id. -/
def Store.createNode (s : Store) (key : String) : Except Err (Int × Store) :=
  if s.nodes.any (fun p => p.2 = key) then .error (.conflict key)
  else .ok (s.nextId,
    { s with nodes := s.nodes ++ [(s.nextId, key)], nextId := s.nextId + 1 })

/-- Modelled from the spec: setNodeProp. -/
def Store.setNodeProp (s : Store) (id : Int) (k : Nat) (v : StoredVal) : Store :=
  { s with nodeProps := keyedSet s.nodeProps (id, k) v }

/-- Modelled from the spec: deleteNodeProp. -/
def Store.deleteNodeProp (s : Store) (id : Int) (k : Nat) : Store :=
  { s with nodeProps := keyedDel s.nodeProps (id, k) }

/-- Modelled from the spec: getNodeProp. -/
def Store.getNodeProp (s : Store) (id : Int) (k : Nat) : Option StoredVal :=
  keyedGet s.nodeProps (id, k)

/-- Modelled from the spec: deleteNode returns whether a node with that id
existed; its properties and incident edges are removed with it. -/
def Store.deleteNode (s : Store) (id : Int) : Bool × Store :=
  (s.nodes.any (fun p => p.1 = id),
   { s with
      nodes := s.nodes.filter (fun p => p.1 ≠ id),
      nodeProps := s.nodeProps.filter (fun p => p.1.1 ≠ id),
      edges := s.edges.filter (fun t => t.1 ≠ id ∧ t.2.2 ≠ id),
      edgeProps := s.edgeProps.filter (fun p => p.1.1 ≠ id ∧ p.1.2.2.1 ≠ id) })

/-- Modelled from the spec: addEdge. -/
def Store.addEdge (s : Store) (src : Int) (et : Nat) (dst : Int) : Store :=
  { s with edges := s.edges ++ [(src, et, dst)] }

/-- Modelled from the spec: deleteEdge removes the matching triples and
their properties. -/
def Store.deleteEdge (s : Store) (src : Int) (et : Nat) (dst : Int) : Store :=
  { s with
      edges := s.edges.filter (fun t => t ≠ (src, et, dst)),
      edgeProps := s.edgeProps.filter (fun p => (p.1.1, p.1.2.1, p.1.2.2.1) ≠ (src, et, dst)) }

/-- Modelled from the spec: setEdgeProp. -/
def Store.setEdgeProp (s : Store) (src : Int) (et : Nat) (dst : Int) (k : Nat)
    (v : StoredVal) : Store :=
  { s with edgeProps := keyedSet s.edgeProps (src, et, dst, k) v }

/-- Modelled from the spec: deleteEdgeProp. -/
def Store.deleteEdgeProp (s : Store) (src : Int) (et : Nat) (dst : Int) (k : Nat) : Store :=
  { s with edgeProps := keyedDel s.edgeProps (src, et, dst, k) }

/-- Modelled from the spec: traverseOut yields the destination ids of the
outgoing edges of a node, optionally restricted to one edge type, in the
engine's iteration order (here: insertion order). -/
def Store.traverseOut (s : Store) (id : Int) (et : Option Nat) : List Int :=
  s.edges.filterMap (fun t =>
    if t.1 = id ∧ (et = Option.none ∨ et = some t.2.1) then some t.2.2 else Option.none)

/-- Modelled from the spec: traverseIn yields the source ids of the
incoming edges of a node. -/
def Store.traverseIn (s : Store) (id : Int) (et : Option Nat) : List Int :=
  s.edges.filterMap (fun t =>
    if t.2.2 = id ∧ (et = Option.none ∨ et = some t.2.1) then some t.1 else Option.none)

/-- Modelled from the spec: the batched traverse variant returning
(id, key) pairs in one call per frontier member. -/
def Store.traverseOutWithKeys (s : Store) (id : Int) (et : Option Nat) :
    List (Int × Option String) :=
  (s.traverseOut id et).map (fun nid => (nid, s.getNodeKey nid))

/-- Modelled from the spec: batched incoming variant. -/
def Store.traverseInWithKeys (s : Store) (id : Int) (et : Option Nat) :
    List (Int × Option String) :=
  (s.traverseIn id et).map (fun nid => (nid, s.getNodeKey nid))

-- ============================================================================
-- Engine handle: store + transaction snapshot + call trace + failure point
-- ============================================================================

/-- One primitive engine call, as recorded in the trace. -/
inductive Call where
  | begin
  | commit
  | rollback
  | createNode (key : String)
  | getNodeByKey (key : String)
  | getNodeKey (id : Int)
  | setNodeProp (id : Int) (k : Nat)
  | deleteNodeProp (id : Int) (k : Nat)
  | getNodeProp (id : Int) (k : Nat)
  | deleteNode (id : Int)
  | addEdge (src : Int) (et : Nat) (dst : Int)
  | deleteEdge (src : Int) (et : Nat) (dst : Int)
  | setEdgeProp (src : Int) (et : Nat) (dst : Int) (k : Nat)
  | deleteEdgeProp (src : Int) (et : Nat) (dst : Int) (k : Nat)
  | findPathBfs (source target : Int)
  | findPathDijkstra (source target : Int)
  | hasPath (source target : Int)
deriving DecidableEq, Repr

/-- The Database handle as seen by the builders: the engine store, the
snapshot taken at begin (restored by rollback), an optional injected
failure point (call number at which the engine fails, modelling spec
section 6: any primitive may fail), the number of calls made so far, and
the trace of calls. -/
structure Engine where
  store : Store
  snapshot : Option Store
  failAt : Option Nat
  calls : Nat
  trace : List Call
deriving Repr

/-- The result of running a builder operation against an engine: the
Python return value or the raised error, together with the engine state
(state survives an exception, as it does in Python). -/
abbrev Res (α : Type) := Except Err α × Engine

/-- Record a call in the trace. -/
def Engine.step (e : Engine) (c : Call) : Engine :=
  { e with calls := e.calls + 1, trace := e.trace ++ [c] }

/-- Run a primitive engine call: record it, fail if the injected failure
point is reached, otherwise apply its store action. -/
def prim {α : Type} (c : Call) (f : Store → Except Err (α × Store)) (e : Engine) : Res α :=
  let e1 := e.step c
  if e.failAt = some e.calls then (.error (.storage e.calls), e1)
  else
    match f e.store with
    | .error err => (.error err, e1)
    | .ok (a, s) => (.ok a, { e1 with store := s })

/-- begin(): snapshot the store (the engine allows one open transaction). -/
def beginTx (e : Engine) : Engine :=
  { e.step .begin with snapshot := some e.store }

/-- commit(): drop the snapshot; may hit the injected failure point. -/
def commitTx (e : Engine) : Res Unit :=
  let e1 := e.step .commit
  if e.failAt = some e.calls then (.error (.storage e.calls), e1)
  else (.ok (), { e1 with snapshot := Option.none })

/-- rollback(): restore the snapshot taken at begin. -/
def rollbackTx (e : Engine) : Engine :=
  { e.step .rollback with
      store := e.snapshot.getD e.store, snapshot := Option.none }

/-- Sequencing of fallible engine steps: run the continuation on the
result, or fall through on the raised error (Python statement order). -/
def andThenE {α β : Type} (x : Res α) (f : α → Engine → Res β) : Res β :=
  match x with
  | (.ok a, e) => f a e
  | (.error err, e) => (.error err, e)

/-- The try block shared by every mutation builder: run the body, then
commit; either failure falls through unmodified. -/
def tryBlock {α : Type} (body : Engine → Res α) (e : Engine) : Res α :=
  match body e with
  | (.ok a, e1) =>
    match commitTx e1 with
    | (.ok _, e2) => (.ok a, e2)
    | (.error err, e2) => (.error err, e2)
  | (.error err, e1) => (.error err, e1)

/-- The transaction discipline shared by every mutation builder
(builders.py): begin outside the try, then the try block, and on any
failure roll back and re-raise the original failure. -/
def withTxn {α : Type} (body : Engine → Res α) (e : Engine) : Res α :=
  match tryBlock body (beginTx e) with
  | (.ok a, e2) => (.ok a, e2)
  | (.error err, e2) => (.error err, rollbackTx e2)

-- Engine-call wrappers used by the builders.

/-- create_node(full_key). -/
def createNodeE (key : String) : Engine → Res Int :=
  prim (.createNode key) (fun s => s.createNode key)

/-- get_node_by_key(key). -/
def getNodeByKeyE (key : String) : Engine → Res (Option Int) :=
  prim (.getNodeByKey key) (fun s => .ok (s.getNodeByKey key, s))

/-- get_node_key(id). -/
def getNodeKeyE (id : Int) : Engine → Res (Option String) :=
  prim (.getNodeKey id) (fun s => .ok (s.getNodeKey id, s))

/-- set_node_prop(id, prop_key_id, value). -/
def setNodePropE (id : Int) (k : Nat) (v : StoredVal) : Engine → Res Unit :=
  prim (.setNodeProp id k) (fun s => .ok ((), s.setNodeProp id k v))

/-- delete_node_prop(id, prop_key_id). -/
def deleteNodePropE (id : Int) (k : Nat) : Engine → Res Unit :=
  prim (.deleteNodeProp id k) (fun s => .ok ((), s.deleteNodeProp id k))

/-- get_node_prop(id, prop_key_id). -/
def getNodePropE (id : Int) (k : Nat) : Engine → Res (Option StoredVal) :=
  prim (.getNodeProp id k) (fun s => .ok (s.getNodeProp id k, s))

/-- delete_node(id): returns whether a node existed. -/
def deleteNodeE (id : Int) : Engine → Res Bool :=
  prim (.deleteNode id) (fun s => .ok (s.deleteNode id))

/-- add_edge(src, etype_id, dst). -/
def addEdgeE (src : Int) (et : Nat) (dst : Int) : Engine → Res Unit :=
  prim (.addEdge src et dst) (fun s => .ok ((), s.addEdge src et dst))

/-- delete_edge(src, etype_id, dst). -/
def deleteEdgeE (src : Int) (et : Nat) (dst : Int) : Engine → Res Unit :=
  prim (.deleteEdge src et dst) (fun s => .ok ((), s.deleteEdge src et dst))

/-- set_edge_prop(src, etype_id, dst, prop_key_id, value). -/
def setEdgePropE (src : Int) (et : Nat) (dst : Int) (k : Nat) (v : StoredVal) :
    Engine → Res Unit :=
  prim (.setEdgeProp src et dst k) (fun s => .ok ((), s.setEdgeProp src et dst k v))

/-- delete_edge_prop(src, etype_id, dst, prop_key_id). -/
def deleteEdgePropE (src : Int) (et : Nat) (dst : Int) (k : Nat) : Engine → Res Unit :=
  prim (.deleteEdgeProp src et dst k) (fun s => .ok ((), s.deleteEdgeProp src et dst k))

-- ============================================================================
-- Mutation builders (builders.py)
-- ============================================================================

/-- The ValueError message of InsertExecutor.returning when a record lacks
the reserved key field. -/
def insertKeyMsg : String := "Insert requires a key field"

/-- The property-write loop of InsertExecutor.returning: a None value is
skipped (absence, not a stored null), an unknown name is silently ignored,
otherwise the value is encoded and written. -/
def setInsertProps (nd : NodeDefM) (rpk : String → Nat) (nodeId : Int) :
    RecordM → Engine → Res Unit
  | [], e => (.ok (), e)
  | (name, v) :: rest, e =>
    if v = PyVal.none then setInsertProps nd rpk nodeId rest e
    else
      match assocGet nd.props name with
      | Option.none => setInsertProps nd rpk nodeId rest e
      | some pt =>
        match toPropValue pt v with
        | .error err => (.error err, e)
        | .ok w =>
          andThenE (setNodePropE nodeId (rpk name) w e)
            (fun _ => setInsertProps nd rpk nodeId rest)

/-- The per-record loop of InsertExecutor.returning: pop the key field
(missing or None fails with ValueError), format the full key, create the
node, write the remaining properties, and collect the handle. -/
def insertLoop (nd : NodeDefM) (rpk : String → Nat) :
    List RecordM → List NodeRefM → Engine → Res (List NodeRefM)
  | [], acc, e => (.ok acc, e)
  | item :: rest, acc, e =>
    match assocGet item "key" with
    | Option.none => (.error (.validation insertKeyMsg), e)
    | some keyArg =>
      if keyArg = PyVal.none then (.error (.validation insertKeyMsg), e)
      else
        let item2 := assocDel item "key"
        let fullKey := nd.keyFn keyArg
        andThenE (createNodeE fullKey e) (fun nodeId e2 =>
          andThenE (setInsertProps nd rpk nodeId item2 e2) (fun _ e3 =>
            insertLoop nd rpk rest (acc ++ [⟨nodeId, fullKey, nd, item2⟩]) e3))

/-- The body of InsertExecutor.returning inside its transaction. -/
def insertBody (nd : NodeDefM) (rpk : String → Nat) (data : List RecordM)
    (e : Engine) : Res (List NodeRefM) :=
  insertLoop nd rpk data [] e

/-- InsertExecutor.returning: one transaction around the whole batch.
The single-record overload wraps a one-element list and unwraps the
one-element result; cardinality shaping is not modelled further. -/
def insertReturning (nd : NodeDefM) (rpk : String → Nat) (data : List RecordM)
    (e : Engine) : Res (List NodeRefM) :=
  withTxn (insertBody nd rpk data) e

/-- The ValueError message of UpdateExecutor.execute without a selector. -/
def updateWhereMsg : String := "Update requires a where condition (id or key)"

/-- The ValueError message of UpdateExecutor.execute when the key selector
does not resolve. -/
def updateNotFoundMsg : String := "Node not found"

/-- The ValueError message of DeleteExecutor.execute without a selector. -/
def deleteWhereMsg : String := "Delete requires a where condition (id or key)"

/-- Selector resolution shared by update and delete: an id selector is
used as is; otherwise a truthy key selector is resolved through the
engine (a None or empty-string key resolves to nothing). -/
def resolveSelector (whereId : Option Int) (whereKey : Option String)
    (e : Engine) : Res (Option Int) :=
  match whereId with
  | some i => (.ok (some i), e)
  | Option.none =>
    match whereKey with
    | some k => if k = "" then (.ok Option.none, e) else getNodeByKeyE k e
    | Option.none => (.ok Option.none, e)

/-- The field loop shared by UpdateExecutor and UpdateByRefExecutor: an
unknown name is silently ignored; a None value deletes the property; a
non-None value is encoded and overwrites it. -/
def updateProps (nd : NodeDefM) (rpk : String → Nat) (nodeId : Int) :
    RecordM → Engine → Res Unit
  | [], e => (.ok (), e)
  | (name, v) :: rest, e =>
    match assocGet nd.props name with
    | Option.none => updateProps nd rpk nodeId rest e
    | some pt =>
      if v = PyVal.none then
        andThenE (deleteNodePropE nodeId (rpk name) e)
          (fun _ => updateProps nd rpk nodeId rest)
      else
        match toPropValue pt v with
        | .error err => (.error err, e)
        | .ok w =>
          andThenE (setNodePropE nodeId (rpk name) w e)
            (fun _ => updateProps nd rpk nodeId rest)

/-- UpdateExecutor.execute: exactly one of id and key is required (else
ValueError); an unresolved selector raises not-found; then one
transaction applies the field loop. -/
def updateExecute (nd : NodeDefM) (rpk : String → Nat) (data : RecordM)
    (whereId : Option Int) (whereKey : Option String) (e : Engine) : Res Unit :=
  if whereId = Option.none ∧ whereKey = Option.none then
    (.error (.validation updateWhereMsg), e)
  else
    match resolveSelector whereId whereKey e with
    | (.error err, e2) => (.error err, e2)
    | (.ok Option.none, e2) => (.error (.validation updateNotFoundMsg), e2)
    | (.ok (some nid), e2) => withTxn (updateProps nd rpk nid data) e2

/-- UpdateByRefExecutor.execute: the selector is always the handle's id. -/
def updateByRefExecute (ref : NodeRefM) (rpk : String → Nat) (data : RecordM)
    (e : Engine) : Res Unit :=
  withTxn (updateProps ref.nodeDef rpk ref.id data) e

/-- The body of DeleteExecutor.execute inside its transaction: the boolean
returned by delete_node is discarded by the source. -/
def deleteBody (nid : Int) (e : Engine) : Res Unit :=
  andThenE (deleteNodeE nid e) (fun _ e2 => (.ok (), e2))

/-- DeleteExecutor.execute: a selector is required (else ValueError); an
unresolved key selector returns False without opening a transaction;
otherwise one transaction deletes the node and the call returns True. -/
def deleteExecute (whereId : Option Int) (whereKey : Option String)
    (e : Engine) : Res Bool :=
  if whereId = Option.none ∧ whereKey = Option.none then
    (.error (.validation deleteWhereMsg), e)
  else
    match resolveSelector whereId whereKey e with
    | (.error err, e2) => (.error err, e2)
    | (.ok Option.none, e2) => (.ok false, e2)
    | (.ok (some nid), e2) =>
      match withTxn (deleteBody nid) e2 with
      | (.error err, e3) => (.error err, e3)
      | (.ok _, e3) => (.ok true, e3)

/-- The edge-property loop of create_link: a None value is skipped, an
unknown name is silently ignored, otherwise encode and write. -/
def setLinkProps (ed : EdgeDefM) (rpk : String → Nat) (src : Int) (et : Nat)
    (dst : Int) : RecordM → Engine → Res Unit
  | [], e => (.ok (), e)
  | (name, v) :: rest, e =>
    if v = PyVal.none then setLinkProps ed rpk src et dst rest e
    else
      match assocGet ed.props name with
      | Option.none => setLinkProps ed rpk src et dst rest e
      | some pt =>
        match toPropValue pt v with
        | .error err => (.error err, e)
        | .ok w =>
          andThenE (setEdgePropE src et dst (rpk name) w e)
            (fun _ => setLinkProps ed rpk src et dst rest)

/-- The body of create_link inside its transaction: add the edge, then
(for a truthy props argument) set each property in the same transaction. -/
def linkBody (ed : EdgeDefM) (rpk : String → Nat) (src : Int) (et : Nat)
    (dst : Int) (props : Option RecordM) (e : Engine) : Res Unit :=
  andThenE (addEdgeE src et dst e) (fun _ e2 =>
    match props with
    | Option.none => (.ok (), e2)
    | some ps => if ps = [] then (.ok (), e2) else setLinkProps ed rpk src et dst ps e2)

/-- create_link: the edge type id is resolved once before the transaction
(memoized on the descriptor, modelled by the resolver argument). -/
def createLink (ed : EdgeDefM) (ret : EdgeDefM → Nat) (rpk : String → Nat)
    (srcId dstId : Int) (props : Option RecordM) (e : Engine) : Res Unit :=
  let etypeId := ret ed
  withTxn (linkBody ed rpk srcId etypeId dstId props) e

/-- The body of delete_link inside its transaction. -/
def unlinkBody (src : Int) (et : Nat) (dst : Int) (e : Engine) : Res Unit :=
  andThenE (deleteEdgeE src et dst e) (fun _ e2 => (.ok (), e2))

/-- delete_link. -/
def deleteLink (ed : EdgeDefM) (ret : EdgeDefM → Nat) (srcId dstId : Int)
    (e : Engine) : Res Unit :=
  let etypeId := ret ed
  withTxn (unlinkBody srcId etypeId dstId) e

/-- The field loop of UpdateEdgeExecutor.execute: same null-deletes and
non-null-overwrites semantics as the node update, scoped to the triple. -/
def updateEdgeProps (ed : EdgeDefM) (rpk : String → Nat) (src : Int) (et : Nat)
    (dst : Int) : RecordM → Engine → Res Unit
  | [], e => (.ok (), e)
  | (name, v) :: rest, e =>
    match assocGet ed.props name with
    | Option.none => updateEdgeProps ed rpk src et dst rest e
    | some pt =>
      if v = PyVal.none then
        andThenE (deleteEdgePropE src et dst (rpk name) e)
          (fun _ => updateEdgeProps ed rpk src et dst rest)
      else
        match toPropValue pt v with
        | .error err => (.error err, e)
        | .ok w =>
          andThenE (setEdgePropE src et dst (rpk name) w e)
            (fun _ => updateEdgeProps ed rpk src et dst rest)

/-- UpdateEdgeExecutor.execute: resolve the edge type id, then one
transaction around the field loop. -/
def updateEdgeExecute (ed : EdgeDefM) (ret : EdgeDefM → Nat) (rpk : String → Nat)
    (srcId dstId : Int) (data : RecordM) (e : Engine) : Res Unit :=
  let etypeId := ret ed
  withTxn (updateEdgeProps ed rpk srcId etypeId dstId data) e

-- ============================================================================
-- Traversal engine (traversal.py)
-- ============================================================================

/-- The tagged step variants OutStep / InStep / BothStep. -/
inductive Dir where
  | out
  | inn
  | both
deriving DecidableEq, Repr

/-- One traversal step: a direction, optionally restricted to one edge
type. -/
structure StepM where
  dir : Dir
  edgeDef : Option EdgeDefM

/-- The per-step edge-type resolution of the fast executors: the memoized
etype-id cache on the descriptor is read first, and the resolver is called
only when it is empty. -/
def stepEtype (ret : EdgeDefM → Nat) (st : StepM) : Option Nat :=
  match st.edgeDef with
  | Option.none => Option.none
  | some ed => some (ed.etypeId.getD (ret ed))

/-- Per-node neighbor fetch of one step in TraversalResult._execute_fast:
out and in are single engine calls; both is the deduplicated union of the
two (the source builds it as a Python set union, whose iteration order is
unspecified; the model keeps first-occurrence order of out then in). -/
def stepNeighbors (g : Store) (et : Option Nat) (d : Dir) (nodeId : Int) : List Int :=
  match d with
  | .out => g.traverseOut nodeId et
  | .inn => g.traverseIn nodeId et
  | .both => (g.traverseOut nodeId et ++ g.traverseIn nodeId et).dedup

/-- The inner dedup loop of _execute_fast: append each neighbor not yet in
the visited set to the next frontier. -/
def neighLoop : List Int → List Int → List Int → List Int × List Int
  | [], visited, next => (visited, next)
  | b :: bs, visited, next =>
    if b ∈ visited then neighLoop bs visited next
    else neighLoop bs (b :: visited) (next ++ [b])

/-- The per-step frontier loop of _execute_fast: process every member of
the current frontier against one shared visited set. -/
def frontierLoop (g : Store) (et : Option Nat) (d : Dir) :
    List Int → List Int → List Int → List Int × List Int
  | [], visited, next => (visited, next)
  | n :: rest, visited, next =>
    let p := neighLoop (stepNeighbors g et d n) visited next
    frontierLoop g et d rest p.1 p.2

/-- One step of _execute_fast: the next frontier, deduplicated by id. -/
def stepFrontier (g : Store) (ret : EdgeDefM → Nat) (st : StepM)
    (current : List Int) : List Int :=
  (frontierLoop g (stepEtype ret st) st.dir current [] []).2

/-- TraversalResult._execute_fast: fold the step sequence over the start
identifiers (which are not deduplicated), yielding only node ids. -/
def executeFast (g : Store) (ret : EdgeDefM → Nat) (starts : List Int)
    (steps : List StepM) : List Int :=
  steps.foldl (fun cur st => stepFrontier g ret st cur) starts

/-- The default key string used when the engine reports no key. -/
def defKey (nid : Int) : String := "node:" ++ toString nid

/-- The Python expression (key or default): a None or empty key falls back
to the default. -/
def keyOr (nid : Int) (k : Option String) : String :=
  match k with
  | some s => if s = "" then defKey nid else s
  | Option.none => defKey nid

/-- Per-node pair fetch of one step in _execute_fast_with_keys: the both
direction concatenates the out and in batches and deduplicates by id with
a local seen set. -/
def bothPairsDedup : List (Int × Option String) → List Int → List (Int × Option String)
  | [], _ => []
  | (nid, k) :: rest, seen =>
    if nid ∈ seen then bothPairsDedup rest seen
    else (nid, k) :: bothPairsDedup rest (nid :: seen)

/-- Per-node pair fetch of one step in _execute_fast_with_keys. -/
def stepPairs (g : Store) (et : Option Nat) (d : Dir) (nodeId : Int) :
    List (Int × Option String) :=
  match d with
  | .out => g.traverseOutWithKeys nodeId et
  | .inn => g.traverseInWithKeys nodeId et
  | .both =>
    bothPairsDedup (g.traverseOutWithKeys nodeId et ++ g.traverseInWithKeys nodeId et) []

/-- The inner dedup loop of _execute_fast_with_keys: append each pair whose
id is not yet visited, substituting the default key for a falsy one. -/
def pairLoop : List (Int × Option String) → List Int → List (Int × String) →
    List Int × List (Int × String)
  | [], visited, next => (visited, next)
  | (nid, k) :: bs, visited, next =>
    if nid ∈ visited then pairLoop bs visited next
    else pairLoop bs (nid :: visited) (next ++ [(nid, keyOr nid k)])

/-- The per-step frontier loop of _execute_fast_with_keys. -/
def pairFrontierLoop (g : Store) (et : Option Nat) (d : Dir) :
    List Int → List Int → List (Int × String) → List Int × List (Int × String)
  | [], visited, next => (visited, next)
  | n :: rest, visited, next =>
    let p := pairLoop (stepPairs g et d n) visited next
    pairFrontierLoop g et d rest p.1 p.2

/-- One step of _execute_fast_with_keys. -/
def stepFrontierPairs (g : Store) (ret : EdgeDefM → Nat) (st : StepM)
    (current : List Int) : List (Int × String) :=
  (pairFrontierLoop g (stepEtype ret st) st.dir current [] []).2

/-- The step loop of _execute_fast_with_keys for a nonempty step list: the
frontier carries (id, key) pairs, and only ids feed the next step. -/
def fastKeysLoop (g : Store) (ret : EdgeDefM → Nat) :
    List StepM → List Int → List (Int × String) → List (Int × String)
  | [], _, pairs => pairs
  | st :: rest, cur, _ =>
    let pairs2 := stepFrontierPairs g ret st cur
    fastKeysLoop g ret rest (pairs2.map (fun p => p.1)) pairs2

/-- TraversalResult._execute_fast_with_keys: with no steps the start
handles' (id, key) pairs are yielded unchanged; otherwise the step loop
runs from the start ids. -/
def executeFastWithKeys (g : Store) (ret : EdgeDefM → Nat)
    (starts : List NodeRefM) (steps : List StepM) : List (Int × String) :=
  match steps with
  | [] => starts.map (fun n => (n.id, n.key))
  | _ :: _ => fastKeysLoop g ret steps (starts.map (fun n => n.id)) []

-- Property-load strategy and the standard execution path.

/-- PropLoadStrategy: tagged variant none / all / only(names).  The
Python set of names is modelled as a list. -/
structure PropLoadStrategy where
  loadAll : Bool
  propNames : Option (List String)
deriving Repr

/-- PropLoadStrategy.none(). -/
def stratNone : PropLoadStrategy := ⟨false, Option.none⟩

/-- PropLoadStrategy.all(). -/
def stratAll : PropLoadStrategy := ⟨true, Option.none⟩

/-- PropLoadStrategy.only(names). -/
def stratOnly (names : List String) : PropLoadStrategy := ⟨false, some names⟩

/-- PropLoadStrategy.should_load. -/
def PropLoadStrategy.shouldLoad (ps : PropLoadStrategy) (name : String) : Bool :=
  if ps.loadAll then true
  else
    match ps.propNames with
    | some ns => decide (name ∈ ns)
    | Option.none => false

/-- PropLoadStrategy.needs_any_props (an Only with an empty set behaves
like None here). -/
def PropLoadStrategy.needsAnyProps (ps : PropLoadStrategy) : Bool :=
  ps.loadAll ||
    (match ps.propNames with
     | some ns => decide (ns.length > 0)
     | Option.none => false)

/-- TraversalResult._load_node_props: for each declared property selected
by the strategy, read it from the engine and keep present values decoded.
The standard path issues these reads one node at a time; reads are
modelled directly on the store (they do not mutate it). -/
def loadNodeProps (g : Store) (rpk : String → Nat) (ps : PropLoadStrategy)
    (nd : NodeDefM) (nodeId : Int) : RecordM :=
  if ps.needsAnyProps then
    nd.props.foldl
      (fun acc p =>
        if ps.shouldLoad p.1 then
          match g.getNodeProp nodeId (rpk p.1) with
          | some w => acc ++ [(p.1, fromPropValue w)]
          | Option.none => acc
        else acc)
      []
  else []

/-- TraversalResult._create_node_ref: a node whose type cannot be resolved
yields nothing (silently excluded); a missing key falls back to the
default; properties are loaded only when requested. -/
def createNodeRef (g : Store) (gnd : Int → Option NodeDefM) (rpk : String → Nat)
    (ps : PropLoadStrategy) (nodeId : Int) (loadProps : Bool) : Option NodeRefM :=
  match gnd nodeId with
  | Option.none => Option.none
  | some nd =>
    let key := (g.getNodeKey nodeId).getD (defKey nodeId)
    let props := if loadProps then loadNodeProps g rpk ps nd nodeId else []
    some ⟨nodeId, key, nd, props⟩

/-- The per-pair wrapper of the ultra-fast path of _execute: a pair whose
node type resolves becomes a property-less handle, others are dropped. -/
def wrapFast (gnd : Int → Option NodeDefM) (p : Int × String) : Option NodeRefM :=
  match gnd p.1 with
  | Option.none => Option.none
  | some nd => some ⟨p.1, p.2, nd, []⟩

/-- The per-id wrapper of the standard path of _execute: resolve the node
(silently excluded when its type is unresolvable), then apply the filter
if one is set. -/
def wrapStd (g : Store) (gnd : Int → Option NodeDefM) (rpk : String → Nat)
    (ps : PropLoadStrategy) (lp : Bool) (filt : Option (NodeRefM → Bool))
    (nid : Int) : Option NodeRefM :=
  match createNodeRef g gnd rpk ps nid lp with
  | Option.none => Option.none
  | some ref =>
    match filt with
    | Option.none => some ref
    | some f => if f ref then some ref else Option.none

/-- TraversalResult._execute collected into a list (to_list / iteration):
with no filter and no properties requested, the batched fast path wraps
each (id, key) pair whose node type resolves; otherwise the standard path
resolves each surviving identifier one at a time and applies the filter,
which may shrink the result. -/
def executeToList (g : Store) (ret : EdgeDefM → Nat) (rpk : String → Nat)
    (gnd : Int → Option NodeDefM) (starts : List NodeRefM) (steps : List StepM)
    (filt : Option (NodeRefM → Bool)) (ps : PropLoadStrategy) : List NodeRefM :=
  let needsFilter := filt.isSome
  let needsProps := ps.needsAnyProps
  if needsFilter = false ∧ needsProps = false then
    (executeFastWithKeys g ret starts steps).filterMap (wrapFast gnd)
  else
    (executeFast g ret (starts.map (fun n => n.id)) steps).filterMap
      (wrapStd g gnd rpk ps (needsProps || needsFilter) filt)

/-- TraversalResult.ids: the identifiers-only strategy. -/
def executeIds (g : Store) (ret : EdgeDefM → Nat) (starts : List NodeRefM)
    (steps : List StepM) : List Int :=
  executeFast g ret (starts.map (fun n => n.id)) steps

/-- TraversalResult.keys: the identifiers-only strategy followed by one
key fetch per id, dropping falsy keys. -/
def executeKeys (g : Store) (ret : EdgeDefM → Nat) (starts : List NodeRefM)
    (steps : List StepM) : List String :=
  (executeFast g ret (starts.map (fun n => n.id)) steps).filterMap (fun nid =>
    match g.getNodeKey nid with
    | some k => if k = "" then Option.none else some k
    | Option.none => Option.none)

/-- TraversalResult.count: without a filter, the optimized count path
(identical frontier computation, then the length); with a filter, the
length of the standard execution. -/
def executeCount (g : Store) (ret : EdgeDefM → Nat) (rpk : String → Nat)
    (gnd : Int → Option NodeDefM) (starts : List NodeRefM) (steps : List StepM)
    (filt : Option (NodeRefM → Bool)) (ps : PropLoadStrategy) : Nat :=
  match filt with
  | Option.none => (executeFast g ret (starts.map (fun n => n.id)) steps).length
  | some _ => (executeToList g ret rpk gnd starts steps filt ps).length

-- ============================================================================
-- Path queries (traversal.py, PathFindingBuilder)
-- ============================================================================

/-- The engine's path answer: a found flag, the path ids (source first,
target last, inclusive), and a total weight. -/
structure EnginePath where
  found : Bool
  path : List Int
  totalWeight : Int
deriving DecidableEq, Repr

/-- Modelled from the spec: neighbor fetch in a requested direction, used
by the engine-side breadth-first search. -/
def Store.dirNeighbors (s : Store) (d : Dir) (et : Option Nat) (n : Int) : List Int :=
  match d with
  | .out => s.traverseOut n et
  | .inn => s.traverseIn n et
  | .both => (s.traverseOut n et ++ s.traverseIn n et).dedup

/-- One breadth-first level: expand every frontier path by its unvisited
neighbors (paths are kept head-first). -/
def bfsStep (s : Store) (et : Option Nat) (d : Dir) (paths : List (List Int))
    (visited : List Int) : List (List Int) × List Int :=
  paths.foldl
    (fun acc p =>
      match p with
      | [] => acc
      | cur :: _ =>
        (s.dirNeighbors d et cur).foldl
          (fun acc2 nb =>
            if nb ∈ acc2.2 then acc2 else (acc2.1 ++ [nb :: p], nb :: acc2.2))
          acc)
    ([], visited)

/-- Modelled from the spec: findPathBfs (section 6) returns the shortest
unweighted path from source to target, optionally edge-type-filtered and
hop-bounded.  The search itself is owned by the engine and out of scope;
this model is a plain fuel-bounded breadth-first search. -/
def Store.findPathBfs (s : Store) (source target : Int) (et : Option Nat)
    (maxDepth : Option Nat) (d : Dir) : EnginePath :=
  match bfsRun (maxDepth.getD s.nodes.length + 1) [[source]] [source] with
  | some p => ⟨true, p, (p.length : Int) - 1⟩
  | Option.none => ⟨false, [], 0⟩
where
  /-- The fuel-bounded level iteration. -/
  bfsRun : Nat → List (List Int) → List Int → Option (List Int)
    | 0, _, _ => Option.none
    | fuel + 1, paths, visited =>
      match paths.find? (fun p => p.head? = some target) with
      | some p => some p.reverse
      | Option.none =>
        let st := bfsStep s et d paths visited
        if st.1.isEmpty then Option.none else bfsRun fuel st.1 st.2

/-- Modelled from the spec: findPathDijkstra; weight semantics are owned
by the engine, modelled here as hop count over the same search. -/
def Store.findPathDijkstra (s : Store) (source target : Int) (et : Option Nat)
    (maxDepth : Option Nat) (d : Dir) : EnginePath :=
  s.findPathBfs source target et maxDepth d

/-- Modelled from the spec: hasPath is boolean-only (the low-level call
takes no direction argument). -/
def Store.hasPath (s : Store) (source target : Int) (et : Option Nat)
    (maxDepth : Option Nat) : Bool :=
  (s.findPathBfs source target et maxDepth .out).found

/-- find_path_bfs engine call. -/
def findPathBfsE (source target : Int) (et : Option Nat) (maxDepth : Option Nat)
    (d : Dir) : Engine → Res EnginePath :=
  prim (.findPathBfs source target)
    (fun s => .ok (s.findPathBfs source target et maxDepth d, s))

/-- find_path_dijkstra engine call. -/
def findPathDijkstraE (source target : Int) (et : Option Nat) (maxDepth : Option Nat)
    (d : Dir) : Engine → Res EnginePath :=
  prim (.findPathDijkstra source target)
    (fun s => .ok (s.findPathDijkstra source target et maxDepth d, s))

/-- has_path engine call. -/
def hasPathE (source target : Int) (et : Option Nat) (maxDepth : Option Nat) :
    Engine → Res Bool :=
  prim (.hasPath source target) (fun s => .ok (s.hasPath source target et maxDepth, s))

/-- PathResult of traversal.py: path handles in order, found flag, total
weight. -/
structure PathResultM where
  nodes : List NodeRefM
  found : Bool
  totalWeight : Int

/-- PathFindingBuilder state: source handle id, optional target handle,
optional edge-type filter, optional hop bound, direction (default out),
and the whole-path property-loading flag. -/
structure PathBuilderM where
  sourceId : Int
  target : Option NodeRefM
  edgeType : Option EdgeDefM
  maxDepth : Option Nat
  direction : Dir
  loadProps : Bool

/-- The ValueError message of the three path terminals without a target. -/
def targetMsg : String := "Target node required. Use .to(target) first."

/-- The inner property loop of PathFindingBuilder._create_node_ref: with
loading enabled it reads every declared property of the node. -/
def pathLoadProps (rpk : String → Nat) (nodeId : Int) :
    List (String × PropType) → RecordM → Engine → Res RecordM
  | [], acc, e => (.ok acc, e)
  | (name, _) :: rest, acc, e =>
    match getNodePropE nodeId (rpk name) e with
    | (.error err, e2) => (.error err, e2)
    | (.ok (some w), e2) =>
      pathLoadProps rpk nodeId rest (acc ++ [(name, fromPropValue w)]) e2
    | (.ok Option.none, e2) => pathLoadProps rpk nodeId rest acc e2

/-- PathFindingBuilder._create_node_ref: an unresolvable node type yields
nothing; a missing key falls back to the default. -/
def pathCreateNodeRef (gnd : Int → Option NodeDefM) (rpk : String → Nat)
    (loadProps : Bool) (nodeId : Int) (e : Engine) : Res (Option NodeRefM) :=
  match gnd nodeId with
  | Option.none => (.ok Option.none, e)
  | some nd =>
    match getNodeKeyE nodeId e with
    | (.error err, e2) => (.error err, e2)
    | (.ok k, e2) =>
      let key := k.getD (defKey nodeId)
      if loadProps then
        match pathLoadProps rpk nodeId nd.props [] e2 with
        | (.error err, e3) => (.error err, e3)
        | (.ok props, e3) => (.ok (some ⟨nodeId, key, nd, props⟩), e3)
      else (.ok (some ⟨nodeId, key, nd, []⟩), e2)

/-- The path-id-to-handle loop shared by find and find_weighted: handles
are built in path order, silently skipping unresolvable nodes. -/
def pathNodesLoop (gnd : Int → Option NodeDefM) (rpk : String → Nat)
    (loadProps : Bool) : List Int → List NodeRefM → Engine → Res (List NodeRefM)
  | [], acc, e => (.ok acc, e)
  | nid :: rest, acc, e =>
    match pathCreateNodeRef gnd rpk loadProps nid e with
    | (.error err, e2) => (.error err, e2)
    | (.ok Option.none, e2) => pathNodesLoop gnd rpk loadProps rest acc e2
    | (.ok (some r), e2) => pathNodesLoop gnd rpk loadProps rest (acc ++ [r]) e2

/-- PathFindingBuilder.find: the absent target fails with ValueError
before anything else; then the edge type is resolved, the engine search
runs, and on success the path ids are resolved to handles in order. -/
def pathFind (pb : PathBuilderM) (ret : EdgeDefM → Nat) (rpk : String → Nat)
    (gnd : Int → Option NodeDefM) (e : Engine) : Res PathResultM :=
  match pb.target with
  | Option.none => (.error (.validation targetMsg), e)
  | some tgt =>
    let et : Option Nat :=
      match pb.edgeType with
      | Option.none => Option.none
      | some ed => some (ret ed)
    match findPathBfsE pb.sourceId tgt.id et pb.maxDepth pb.direction e with
    | (.error err, e2) => (.error err, e2)
    | (.ok r, e2) =>
      if r.found = false then (.ok ⟨[], false, 0⟩, e2)
      else
        match pathNodesLoop gnd rpk pb.loadProps r.path [] e2 with
        | (.error err, e3) => (.error err, e3)
        | (.ok nodes, e3) => (.ok ⟨nodes, true, r.totalWeight⟩, e3)

/-- PathFindingBuilder.find_weighted: identical shape over the engine's
Dijkstra call. -/
def pathFindWeighted (pb : PathBuilderM) (ret : EdgeDefM → Nat) (rpk : String → Nat)
    (gnd : Int → Option NodeDefM) (e : Engine) : Res PathResultM :=
  match pb.target with
  | Option.none => (.error (.validation targetMsg), e)
  | some tgt =>
    let et : Option Nat :=
      match pb.edgeType with
      | Option.none => Option.none
      | some ed => some (ret ed)
    match findPathDijkstraE pb.sourceId tgt.id et pb.maxDepth pb.direction e with
    | (.error err, e2) => (.error err, e2)
    | (.ok r, e2) =>
      if r.found = false then (.ok ⟨[], false, 0⟩, e2)
      else
        match pathNodesLoop gnd rpk pb.loadProps r.path [] e2 with
        | (.error err, e3) => (.error err, e3)
        | (.ok nodes, e3) => (.ok ⟨nodes, true, r.totalWeight⟩, e3)

/-- PathFindingBuilder.exists: boolean-only, constructs no path handles;
the absent target fails with ValueError before anything else. -/
def pathExists (pb : PathBuilderM) (ret : EdgeDefM → Nat) (e : Engine) : Res Bool :=
  match pb.target with
  | Option.none => (.error (.validation targetMsg), e)
  | some tgt =>
    let et : Option Nat :=
      match pb.edgeType with
      | Option.none => Option.none
      | some ed => some (ret ed)
    hasPathE pb.sourceId tgt.id et pb.maxDepth e

-- ============================================================================
-- NodeRef equality, hash and attribute access (builders.py)
-- ============================================================================

/-- A Python value compared against a NodeRef (NodeRef or anything else). -/
inductive PyObj where
  | ref (r : NodeRefM)
  | int (n : Int)
  | str (s : String)
  | boolV (b : Bool)
  | noneV

/-- NodeRef equality: id equality against another NodeRef, False against
anything else. -/
def nodeRefEq (a : NodeRefM) (other : PyObj) : Bool :=
  match other with
  | .ref b => decide (a.id = b.id)
  | _ => false

/-- Model of the Python hash of an integer. -/
def pyHashInt (n : Int) : Int := n

/-- NodeRef hash: the hash of the id alone. -/
def nodeRefHash (a : NodeRefM) : Int := pyHashInt a.id

/-- The AttributeError message of NodeRef attribute access. -/
def noAttrMsg (name : String) : String :=
  "NodeRef object has no attribute " ++ name

/-- NodeRef attribute access (the reflective lookup of builders.py): a
materialized property is returned; a declared but unset property yields
None; anything else raises AttributeError. -/
def nodeRefGetattr (r : NodeRefM) (name : String) : Except String PyVal :=
  match assocGet r.props name with
  | some v => .ok v
  | Option.none =>
    if r.nodeDef.props.any (fun p => p.1 = name) then .ok PyVal.none
    else .error (noAttrMsg name)

-- ============================================================================
-- Concrete fixtures used by witnesses and counterexamples
-- ============================================================================

/-- The calls added to the trace by running an operation from engine e. -/
def newTrace (e e2 : Engine) : List Call := e2.trace.drop e.trace.length

/-- A concrete user node type (name and age). -/
def ndUser : NodeDefM :=
  ⟨"user", fun v => "user:" ++ pyToStr v, [("name", PropType.string), ("age", PropType.int)]⟩

/-- A concrete property-key resolver, injective on the fixture names. -/
def rpk0 : String → Nat := String.length

/-- A concrete store with two user nodes and one edge of type 7. -/
def store0 : Store := ⟨[(1, "user:alice"), (2, "user:bob")], 3, [], [(1, 7, 2)], []⟩

/-- A fresh engine over the concrete store, with no injected failure. -/
def eng0 : Engine := ⟨store0, Option.none, Option.none, 0, []⟩

/-- A handle on node 1. -/
def refA : NodeRefM := ⟨1, "user:alice", ndUser, [("name", PyVal.str "Alice")]⟩

/-- A second handle on node 1 differing in key, schema and properties. -/
def refA2 : NodeRefM := ⟨1, "", ⟨"user2", fun _ => "", []⟩, []⟩

/-- A handle on node 2. -/
def refB : NodeRefM := ⟨2, "user:bob", ndUser, []⟩

/-- A path builder over node 1 with no target set. -/
def pb0 : PathBuilderM := ⟨1, Option.none, Option.none, Option.none, Dir.out, false⟩

-- ============================================================================
-- C1 — delete semantics
-- ============================================================================

/-- C1 (code bug evidence): a delete whose selector is the id of a node
that does not exist returns True with no state change — the boolean of
delete_node is discarded by DeleteExecutor.execute, contradicting both
the claim and the method's own docstring (True if a node was deleted,
False otherwise).  Here store0 has no node of id 5, yet execute returns
True. -/
theorem delete_missing_id_returns_true :
    (deleteExecute (some 5) Option.none eng0).1 = .ok true ∧
    store0.nodes.all (fun p => decide (p.1 ≠ 5)) = true ∧
    (deleteExecute (some 5) Option.none eng0).2.store = store0 :=
  ⟨rfl, rfl, rfl⟩

-- ============================================================================
-- C2 — insert validation relative to the transaction boundary
-- ============================================================================

/-- C2 (counterexample): inserting a record that lacks the reserved key
field does raise the ValidationError, but only after begin() has been
called — the transaction is opened before the per-record validation runs,
refuting the claim that the failure precedes any engine call. -/
theorem insert_missing_key_counterexample :
    (insertReturning ndUser rpk0 [[("name", PyVal.str "X")]] eng0).1
        = .error (.validation insertKeyMsg) ∧
    Call.begin ∈ (insertReturning ndUser rpk0 [[("name", PyVal.str "X")]] eng0).2.trace := by
  constructor
  · rfl
  · have h : (insertReturning ndUser rpk0 [[("name", PyVal.str "X")]] eng0).2.trace
        = [Call.begin, Call.rollback] := rfl
    rw [h]
    simp

/-- C2 (amended): when the first record lacks the reserved key field (or
carries None there), insert fails with the ValidationError inside the
just-opened transaction: the transaction is rolled back, the store is
unchanged, and the only engine calls made are begin and rollback — in
particular no node-creation or property-write call is ever issued. -/
theorem insert_missing_key_in_txn (nd : NodeDefM) (rpk : String → Nat)
    (item : RecordM) (rest : List RecordM) (e : Engine)
    (hkey : assocGet item "key" = Option.none ∨ assocGet item "key" = some PyVal.none)
    (htr : e.trace = []) :
    (insertReturning nd rpk (item :: rest) e).1 = .error (.validation insertKeyMsg) ∧
    (insertReturning nd rpk (item :: rest) e).2.store = e.store ∧
    (insertReturning nd rpk (item :: rest) e).2.trace = [Call.begin, Call.rollback] := by
  have hloop : ∀ e1 : Engine, insertLoop nd rpk (item :: rest) [] e1
      = (.error (.validation insertKeyMsg), e1) := by
    intro e1
    rcases hkey with h | h <;> simp [insertLoop, h]
  refine ⟨?_, ?_, ?_⟩ <;>
    simp [insertReturning, withTxn, insertBody, tryBlock, hloop, rollbackTx, beginTx,
      Engine.step, htr]

/-- C2 (witness): the amended theorem applied at a concrete keyless
record over the concrete engine. -/
theorem insert_missing_key_in_txn_witness :
    (insertReturning ndUser rpk0 [[("age", PyVal.int 3)]] eng0).1
        = .error (.validation insertKeyMsg) ∧
    (insertReturning ndUser rpk0 [[("age", PyVal.int 3)]] eng0).2.store = eng0.store :=
  ⟨(insert_missing_key_in_txn ndUser rpk0 [("age", PyVal.int 3)] [] eng0 (Or.inl rfl) rfl).1,
   (insert_missing_key_in_txn ndUser rpk0 [("age", PyVal.int 3)] [] eng0 (Or.inl rfl) rfl).2.1⟩

-- ============================================================================
-- C8 — path-query target validation
-- ============================================================================

/-- C8: each of the three path terminals — find, find_weighted and exists —
fails with the ValidationError when no target has been set, before any
engine call is made: the engine state (store, trace, call count) is
returned untouched. -/
theorem pathTarget_validation (pb : PathBuilderM) (ret : EdgeDefM → Nat)
    (rpk : String → Nat) (gnd : Int → Option NodeDefM) (e : Engine)
    (h : pb.target = Option.none) :
    pathFind pb ret rpk gnd e = (.error (.validation targetMsg), e) ∧
    pathFindWeighted pb ret rpk gnd e = (.error (.validation targetMsg), e) ∧
    pathExists pb ret e = (.error (.validation targetMsg), e) := by
  refine ⟨?_, ?_, ?_⟩ <;> simp [pathFind, pathFindWeighted, pathExists, h]

/-- C8 (witness): the theorem applied to a concrete builder without a
target over the concrete engine. -/
theorem pathTarget_validation_witness :
    pb0.target = Option.none ∧
    pathFind pb0 (fun _ => 7) rpk0 (fun _ => some ndUser) eng0
      = (.error (.validation targetMsg), eng0) :=
  ⟨rfl, (pathTarget_validation pb0 (fun _ => 7) rpk0 (fun _ => some ndUser) eng0 rfl).1⟩

-- ============================================================================
-- C9 — NodeRef equality and hash
-- ============================================================================

/-- C9: two node handles compare equal exactly when their ids are equal,
irrespective of key, schema binding or materialized properties; a handle
never equals a non-handle value; and the hash depends only on the id, so
equal handles have equal hashes. -/
theorem nodeRefEq_spec :
    (∀ a b : NodeRefM, (nodeRefEq a (PyObj.ref b) = true ↔ a.id = b.id)) ∧
    (∀ (a : NodeRefM) (o : PyObj), (∀ r, o ≠ PyObj.ref r) → nodeRefEq a o = false) ∧
    (∀ a b : NodeRefM, nodeRefEq a (PyObj.ref b) = true → nodeRefHash a = nodeRefHash b) := by
  refine ⟨fun a b => by simp [nodeRefEq], fun a o h => ?_, fun a b h => ?_⟩
  · cases o with
    | ref r => exact absurd rfl (h r)
    | int n => rfl
    | str s => rfl
    | boolV b => rfl
    | noneV => rfl
  · simp only [nodeRefEq, decide_eq_true_eq] at h
    simp [nodeRefHash, pyHashInt, h]

/-- C9 (witness): a handle does not equal a plain integer, and two
handles sharing the id 1 but nothing else hash alike. -/
theorem nodeRefEq_spec_witness :
    nodeRefEq refA (PyObj.int 3) = false ∧ nodeRefHash refA = nodeRefHash refA2 :=
  ⟨nodeRefEq_spec.2.1 refA (PyObj.int 3) (fun _ h => PyObj.noConfusion h),
   nodeRefEq_spec.2.2 refA refA2 (by rfl)⟩

-- ============================================================================
-- C10 — NodeRef attribute access
-- ============================================================================

/-- C10: for an attribute name not among the handle's materialized
properties, access yields None when the name is declared in the handle's
schema (declared but unset — never an error), and raises AttributeError
exactly when the name is not declared. -/
theorem nodeRefGetattr_spec (r : NodeRefM) (name : String)
    (hnp : assocGet r.props name = Option.none) :
    (r.nodeDef.props.any (fun p => p.1 = name) = true →
        nodeRefGetattr r name = .ok PyVal.none) ∧
    (r.nodeDef.props.any (fun p => p.1 = name) = false →
        nodeRefGetattr r name = .error (noAttrMsg name)) := by
  constructor <;> intro h <;> simp [nodeRefGetattr, hnp, h]

/-- C10 (witness): on the concrete handle of node 2 the declared but
unloaded age yields None. -/
theorem nodeRefGetattr_spec_witness :
    assocGet refB.props "age" = Option.none ∧
    nodeRefGetattr refB "age" = .ok PyVal.none :=
  ⟨rfl, (nodeRefGetattr_spec refB "age" rfl).1 rfl⟩

-- ============================================================================
-- Frontier lemmas (traversal.py, C4 / C5 / C6)
-- ============================================================================

/-- Membership characterization of the inner dedup loop of _execute_fast:
the visited set collects the inputs, and the next frontier gains exactly
the neighbors not already visited. -/
theorem neighLoop_spec (bs : List Int) : ∀ v nx : List Int,
    (∀ x, x ∈ (neighLoop bs v nx).1 ↔ x ∈ v ∨ x ∈ bs) ∧
    (∀ x, x ∈ (neighLoop bs v nx).2 ↔ x ∈ nx ∨ (x ∈ bs ∧ x ∉ v)) := by
  induction bs with
  | nil =>
    intro v nx
    simp [neighLoop]
  | cons b bs ih =>
    intro v nx
    by_cases hb : b ∈ v
    · obtain ⟨h1, h2⟩ := ih v nx
      refine ⟨fun x => ?_, fun x => ?_⟩
      · rw [show neighLoop (b :: bs) v nx = neighLoop bs v nx from by
          simp only [neighLoop, if_pos hb], h1]
        simp only [List.mem_cons]
        rcases eq_or_ne x b with rfl | hxb <;> tauto
      · rw [show neighLoop (b :: bs) v nx = neighLoop bs v nx from by
          simp only [neighLoop, if_pos hb], h2]
        simp only [List.mem_cons]
        rcases eq_or_ne x b with rfl | hxb <;> tauto
    · obtain ⟨h1, h2⟩ := ih (b :: v) (nx ++ [b])
      refine ⟨fun x => ?_, fun x => ?_⟩
      · rw [show neighLoop (b :: bs) v nx = neighLoop bs (b :: v) (nx ++ [b]) from by
          simp only [neighLoop, if_neg hb], h1]
        simp only [List.mem_cons]
        tauto
      · rw [show neighLoop (b :: bs) v nx = neighLoop bs (b :: v) (nx ++ [b]) from by
          simp only [neighLoop, if_neg hb], h2]
        simp only [List.mem_cons, List.mem_append, List.mem_singleton]
        rcases eq_or_ne x b with rfl | hxb <;> tauto

/-- The inner dedup loop keeps the next frontier free of duplicates. -/
theorem neighLoop_nodup (bs : List Int) : ∀ v nx : List Int, nx.Nodup →
    (∀ x ∈ nx, x ∈ v) → (neighLoop bs v nx).2.Nodup := by
  induction bs with
  | nil =>
    intro v nx h _
    simpa [neighLoop] using h
  | cons b bs ih =>
    intro v nx hnd hsub
    by_cases hb : b ∈ v
    · rw [show neighLoop (b :: bs) v nx = neighLoop bs v nx from by
        simp only [neighLoop, if_pos hb]]
      exact ih v nx hnd hsub
    · rw [show neighLoop (b :: bs) v nx = neighLoop bs (b :: v) (nx ++ [b]) from by
        simp only [neighLoop, if_neg hb]]
      refine ih (b :: v) (nx ++ [b]) ?_ ?_
      · have hbn : b ∉ nx := fun h => hb (hsub b h)
        simp [List.nodup_append, hnd, hbn]
      · intro x hx
        rcases List.mem_append.mp hx with h | h
        · exact List.mem_cons_of_mem _ (hsub x h)
        · simp only [List.mem_singleton] at h
          subst h
          exact List.mem_cons_self _ _

/-- Membership characterization of the per-step frontier loop of
_execute_fast. -/
theorem frontierLoop_spec (g : Store) (et : Option Nat) (d : Dir) (cur : List Int) :
    ∀ v nx : List Int,
    (∀ x, x ∈ (frontierLoop g et d cur v nx).1 ↔
        x ∈ v ∨ ∃ n ∈ cur, x ∈ stepNeighbors g et d n) ∧
    (∀ x, x ∈ (frontierLoop g et d cur v nx).2 ↔
        x ∈ nx ∨ (x ∉ v ∧ ∃ n ∈ cur, x ∈ stepNeighbors g et d n)) := by
  induction cur with
  | nil =>
    intro v nx
    simp [frontierLoop]
  | cons n rest ih =>
    intro v nx
    obtain ⟨hv, hn⟩ := neighLoop_spec (stepNeighbors g et d n) v nx
    obtain ⟨ihv, ihn⟩ := ih (neighLoop (stepNeighbors g et d n) v nx).1
      (neighLoop (stepNeighbors g et d n) v nx).2
    have hstep : frontierLoop g et d (n :: rest) v nx
        = frontierLoop g et d rest (neighLoop (stepNeighbors g et d n) v nx).1
            (neighLoop (stepNeighbors g et d n) v nx).2 := by
      simp only [frontierLoop]
    refine ⟨fun x => ?_, fun x => ?_⟩
    · rw [hstep, ihv x]
      simp only [hv x, List.mem_cons]
      constructor
      · rintro ((h | h) | ⟨m, hm, hx⟩)
        · exact Or.inl h
        · exact Or.inr ⟨n, Or.inl rfl, h⟩
        · exact Or.inr ⟨m, Or.inr hm, hx⟩
      · rintro (h | ⟨m, (rfl | hm), hx⟩)
        · exact Or.inl (Or.inl h)
        · exact Or.inl (Or.inr hx)
        · exact Or.inr ⟨m, hm, hx⟩
    · rw [hstep, ihn x]
      simp only [hn x, hv x, List.mem_cons]
      constructor
      · rintro ((h | ⟨h1, h2⟩) | ⟨h1, m, hm, hx⟩)
        · exact Or.inl h
        · exact Or.inr ⟨h2, n, Or.inl rfl, h1⟩
        · exact Or.inr ⟨fun hv2 => h1 (Or.inl hv2), m, Or.inr hm, hx⟩
      · rintro (h | ⟨h1, m, (rfl | hm), hx⟩)
        · exact Or.inl (Or.inl h)
        · exact Or.inl (Or.inr ⟨hx, h1⟩)
        · by_cases h2 : x ∈ stepNeighbors g et d n
          · exact Or.inl (Or.inr ⟨h2, h1⟩)
          · exact Or.inr ⟨fun hc => (hc.elim h1 h2), m, hm, hx⟩

/-- The per-step frontier loop keeps the next frontier free of
duplicates. -/
theorem frontierLoop_nodup (g : Store) (et : Option Nat) (d : Dir) (cur : List Int) :
    ∀ v nx : List Int, nx.Nodup → (∀ x ∈ nx, x ∈ v) →
    (frontierLoop g et d cur v nx).2.Nodup := by
  induction cur with
  | nil =>
    intro v nx h _
    simpa [frontierLoop] using h
  | cons n rest ih =>
    intro v nx hnd hsub
    have hstep : frontierLoop g et d (n :: rest) v nx
        = frontierLoop g et d rest (neighLoop (stepNeighbors g et d n) v nx).1
            (neighLoop (stepNeighbors g et d n) v nx).2 := by
      simp only [frontierLoop]
    rw [hstep]
    obtain ⟨hv, hn⟩ := neighLoop_spec (stepNeighbors g et d n) v nx
    refine ih _ _ (neighLoop_nodup _ v nx hnd hsub) ?_
    intro x hx
    rw [hv x]
    rcases (hn x).mp hx with h | ⟨h1, _⟩
    · exact Or.inl (hsub x h)
    · exact Or.inr h1

/-- One step of _execute_fast yields a duplicate-free frontier. -/
theorem stepFrontier_nodup (g : Store) (ret : EdgeDefM → Nat) (st : StepM)
    (cur : List Int) : (stepFrontier g ret st cur).Nodup :=
  frontierLoop_nodup g (stepEtype ret st) st.dir cur [] [] (by simp) (by simp)

/-- Membership in one step of _execute_fast: exactly the neighbors of the
current frontier in the step's direction. -/
theorem stepFrontier_mem (g : Store) (ret : EdgeDefM → Nat) (st : StepM)
    (cur : List Int) (x : Int) :
    x ∈ stepFrontier g ret st cur ↔
      ∃ n ∈ cur, x ∈ stepNeighbors g (stepEtype ret st) st.dir n := by
  have h := (frontierLoop_spec g (stepEtype ret st) st.dir cur [] []).2 x
  simpa [stepFrontier] using h

/-- Unfolding: a traversal with no steps leaves the frontier as the start
identifiers. -/
theorem executeFast_nil (g : Store) (ret : EdgeDefM → Nat) (starts : List Int) :
    executeFast g ret starts [] = starts := rfl

/-- Unfolding: one step of _execute_fast. -/
theorem executeFast_cons (g : Store) (ret : EdgeDefM → Nat) (starts : List Int)
    (st : StepM) (steps : List StepM) :
    executeFast g ret starts (st :: steps)
      = executeFast g ret (stepFrontier g ret st starts) steps := rfl

/-- After at least one step, the frontier of _execute_fast is
duplicate-free. -/
theorem executeFast_nodup (g : Store) (ret : EdgeDefM → Nat) :
    ∀ (steps : List StepM) (starts : List Int), steps ≠ [] →
    (executeFast g ret starts steps).Nodup := by
  intro steps
  induction steps with
  | nil =>
    intro starts h
    exact absurd rfl h
  | cons st rest ih =>
    intro starts _
    rw [executeFast_cons]
    cases rest with
    | nil => exact stepFrontier_nodup g ret st starts
    | cons st2 r2 => exact ih _ (by simp)

/-- Membership characterization of the inner dedup loop of
_execute_fast_with_keys, at the level of ids. -/
theorem pairLoop_spec (bs : List (Int × Option String)) :
    ∀ (v : List Int) (nx : List (Int × String)),
    (∀ x, x ∈ (pairLoop bs v nx).1 ↔ x ∈ v ∨ x ∈ bs.map Prod.fst) ∧
    (∀ x, x ∈ (pairLoop bs v nx).2.map Prod.fst ↔
        x ∈ nx.map Prod.fst ∨ (x ∈ bs.map Prod.fst ∧ x ∉ v)) := by
  induction bs with
  | nil =>
    intro v nx
    simp [pairLoop]
  | cons b bs ih =>
    obtain ⟨nid, k⟩ := b
    intro v nx
    by_cases hb : nid ∈ v
    · obtain ⟨h1, h2⟩ := ih v nx
      refine ⟨fun x => ?_, fun x => ?_⟩
      · rw [show pairLoop ((nid, k) :: bs) v nx = pairLoop bs v nx from by
          simp only [pairLoop, if_pos hb], h1]
        simp only [List.map_cons, List.mem_cons]
        rcases eq_or_ne x nid with rfl | hxb <;> tauto
      · rw [show pairLoop ((nid, k) :: bs) v nx = pairLoop bs v nx from by
          simp only [pairLoop, if_pos hb], h2]
        simp only [List.map_cons, List.mem_cons]
        rcases eq_or_ne x nid with rfl | hxb <;> tauto
    · obtain ⟨h1, h2⟩ := ih (nid :: v) (nx ++ [(nid, keyOr nid k)])
      refine ⟨fun x => ?_, fun x => ?_⟩
      · rw [show pairLoop ((nid, k) :: bs) v nx
            = pairLoop bs (nid :: v) (nx ++ [(nid, keyOr nid k)]) from by
          simp only [pairLoop, if_neg hb], h1]
        simp only [List.map_cons, List.mem_cons]
        tauto
      · rw [show pairLoop ((nid, k) :: bs) v nx
            = pairLoop bs (nid :: v) (nx ++ [(nid, keyOr nid k)]) from by
          simp only [pairLoop, if_neg hb], h2]
        simp only [List.map_cons, List.mem_cons, List.map_append, List.mem_append,
          List.map_cons, List.map_nil, List.mem_singleton]
        rcases eq_or_ne x nid with rfl | hxb <;> tauto

/-- The inner dedup loop of _execute_fast_with_keys keeps the ids of the
next frontier free of duplicates. -/
theorem pairLoop_nodup (bs : List (Int × Option String)) :
    ∀ (v : List Int) (nx : List (Int × String)), (nx.map Prod.fst).Nodup →
    (∀ x ∈ nx.map Prod.fst, x ∈ v) → ((pairLoop bs v nx).2.map Prod.fst).Nodup := by
  induction bs with
  | nil =>
    intro v nx h _
    simpa [pairLoop] using h
  | cons b bs ih =>
    obtain ⟨nid, k⟩ := b
    intro v nx hnd hsub
    by_cases hb : nid ∈ v
    · rw [show pairLoop ((nid, k) :: bs) v nx = pairLoop bs v nx from by
        simp only [pairLoop, if_pos hb]]
      exact ih v nx hnd hsub
    · rw [show pairLoop ((nid, k) :: bs) v nx
          = pairLoop bs (nid :: v) (nx ++ [(nid, keyOr nid k)]) from by
        simp only [pairLoop, if_neg hb]]
      refine ih (nid :: v) (nx ++ [(nid, keyOr nid k)]) ?_ ?_
      · have hbn : nid ∉ nx.map Prod.fst := fun h => hb (hsub nid h)
        simp [List.nodup_append, hnd, hbn]
      · intro x hx
        simp only [List.map_append, List.map_cons, List.map_nil, List.mem_append,
          List.mem_singleton] at hx
        rcases hx with h | h
        · exact List.mem_cons_of_mem _ (hsub x h)
        · subst h
          exact List.mem_cons_self _ _

/-- Membership characterization of the per-step frontier loop of
_execute_fast_with_keys, at the level of ids. -/
theorem pairFrontierLoop_spec (g : Store) (et : Option Nat) (d : Dir)
    (cur : List Int) : ∀ (v : List Int) (nx : List (Int × String)),
    (∀ x, x ∈ (pairFrontierLoop g et d cur v nx).1 ↔
        x ∈ v ∨ ∃ n ∈ cur, x ∈ (stepPairs g et d n).map Prod.fst) ∧
    (∀ x, x ∈ (pairFrontierLoop g et d cur v nx).2.map Prod.fst ↔
        x ∈ nx.map Prod.fst ∨ (x ∉ v ∧ ∃ n ∈ cur, x ∈ (stepPairs g et d n).map Prod.fst)) := by
  induction cur with
  | nil =>
    intro v nx
    simp [pairFrontierLoop]
  | cons n rest ih =>
    intro v nx
    obtain ⟨hv, hn⟩ := pairLoop_spec (stepPairs g et d n) v nx
    obtain ⟨ihv, ihn⟩ := ih (pairLoop (stepPairs g et d n) v nx).1
      (pairLoop (stepPairs g et d n) v nx).2
    have hstep : pairFrontierLoop g et d (n :: rest) v nx
        = pairFrontierLoop g et d rest (pairLoop (stepPairs g et d n) v nx).1
            (pairLoop (stepPairs g et d n) v nx).2 := by
      simp only [pairFrontierLoop]
    refine ⟨fun x => ?_, fun x => ?_⟩
    · rw [hstep, ihv x]
      simp only [hv x, List.mem_cons]
      constructor
      · rintro ((h | h) | ⟨m, hm, hx⟩)
        · exact Or.inl h
        · exact Or.inr ⟨n, Or.inl rfl, h⟩
        · exact Or.inr ⟨m, Or.inr hm, hx⟩
      · rintro (h | ⟨m, (rfl | hm), hx⟩)
        · exact Or.inl (Or.inl h)
        · exact Or.inl (Or.inr hx)
        · exact Or.inr ⟨m, hm, hx⟩
    · rw [hstep, ihn x]
      simp only [hn x, hv x, List.mem_cons]
      constructor
      · rintro ((h | ⟨h1, h2⟩) | ⟨h1, m, hm, hx⟩)
        · exact Or.inl h
        · exact Or.inr ⟨h2, n, Or.inl rfl, h1⟩
        · exact Or.inr ⟨fun hv2 => h1 (Or.inl hv2), m, Or.inr hm, hx⟩
      · rintro (h | ⟨h1, m, (rfl | hm), hx⟩)
        · exact Or.inl (Or.inl h)
        · exact Or.inl (Or.inr ⟨hx, h1⟩)
        · by_cases h2 : x ∈ (stepPairs g et d m).map Prod.fst
          case pos =>
            by_cases h3 : x ∈ (stepPairs g et d n).map Prod.fst
            · exact Or.inl (Or.inr ⟨h3, h1⟩)
            · exact Or.inr ⟨fun hc => (hc.elim h1 h3), m, hm, hx⟩
          case neg => exact absurd hx h2

/-- The per-step frontier loop of _execute_fast_with_keys keeps the ids of
the next frontier free of duplicates. -/
theorem pairFrontierLoop_nodup (g : Store) (et : Option Nat) (d : Dir)
    (cur : List Int) : ∀ (v : List Int) (nx : List (Int × String)),
    (nx.map Prod.fst).Nodup → (∀ x ∈ nx.map Prod.fst, x ∈ v) →
    ((pairFrontierLoop g et d cur v nx).2.map Prod.fst).Nodup := by
  induction cur with
  | nil =>
    intro v nx h _
    simpa [pairFrontierLoop] using h
  | cons n rest ih =>
    intro v nx hnd hsub
    have hstep : pairFrontierLoop g et d (n :: rest) v nx
        = pairFrontierLoop g et d rest (pairLoop (stepPairs g et d n) v nx).1
            (pairLoop (stepPairs g et d n) v nx).2 := by
      simp only [pairFrontierLoop]
    rw [hstep]
    obtain ⟨hv, hn⟩ := pairLoop_spec (stepPairs g et d n) v nx
    refine ih _ _ (pairLoop_nodup _ v nx hnd hsub) ?_
    intro x hx
    rw [hv x]
    rcases (hn x).mp hx with h | ⟨h1, _⟩
    · exact Or.inl (hsub x h)
    · exact Or.inr h1

/-- One step of _execute_fast_with_keys yields duplicate-free frontier
ids. -/
theorem stepFrontierPairs_nodup (g : Store) (ret : EdgeDefM → Nat) (st : StepM)
    (cur : List Int) : ((stepFrontierPairs g ret st cur).map Prod.fst).Nodup :=
  pairFrontierLoop_nodup g (stepEtype ret st) st.dir cur [] [] (by simp) (by simp)

/-- Membership in one step of _execute_fast_with_keys, at the level of
ids. -/
theorem stepFrontierPairs_mem (g : Store) (ret : EdgeDefM → Nat) (st : StepM)
    (cur : List Int) (x : Int) :
    x ∈ (stepFrontierPairs g ret st cur).map Prod.fst ↔
      ∃ n ∈ cur, x ∈ (stepPairs g (stepEtype ret st) st.dir n).map Prod.fst := by
  have h := (pairFrontierLoop_spec g (stepEtype ret st) st.dir cur [] []).2 x
  simpa [stepFrontierPairs] using h

/-- After at least one step, the frontier ids of _execute_fast_with_keys
are duplicate-free. -/
theorem fastKeysLoop_nodup (g : Store) (ret : EdgeDefM → Nat) :
    ∀ (steps : List StepM) (cur : List Int) (p0 : List (Int × String)),
    steps ≠ [] → ((fastKeysLoop g ret steps cur p0).map Prod.fst).Nodup := by
  intro steps
  induction steps with
  | nil =>
    intro _ _ h
    exact absurd rfl h
  | cons st rest ih =>
    intro cur p0 _
    cases rest with
    | nil => exact stepFrontierPairs_nodup g ret st cur
    | cons a b =>
      rw [show fastKeysLoop g ret (st :: a :: b) cur p0
          = fastKeysLoop g ret (a :: b)
              ((stepFrontierPairs g ret st cur).map (fun p => p.1))
              (stepFrontierPairs g ret st cur) from by
        simp only [fastKeysLoop]]
      exact ih _ _ (by simp)

-- ============================================================================
-- C4 — frontier deduplication
-- ============================================================================

/-- C4: at every step of a traversal the next frontier is deduplicated by
identifier, in both fast executors: after at least one step the frontier
has no duplicate ids, and one step contains an id exactly when it is a
neighbor of some member of the current frontier — so a node reachable from
two frontier members, or via two parallel edges, appears exactly once. -/
theorem frontier_dedup (g : Store) (ret : EdgeDefM → Nat) (starts : List Int)
    (startRefs : List NodeRefM) (steps : List StepM) (h : steps ≠ []) :
    (executeFast g ret starts steps).Nodup ∧
    ((executeFastWithKeys g ret startRefs steps).map Prod.fst).Nodup ∧
    (∀ (st : StepM) (x : Int), x ∈ executeFast g ret starts [st] ↔
        ∃ n ∈ starts, x ∈ stepNeighbors g (stepEtype ret st) st.dir n) := by
  refine ⟨executeFast_nodup g ret steps starts h, ?_, ?_⟩
  · cases steps with
    | nil => exact absurd rfl h
    | cons st rest =>
      rw [show executeFastWithKeys g ret startRefs (st :: rest)
          = fastKeysLoop g ret (st :: rest) (startRefs.map (fun n => n.id)) [] from rfl]
      exact fastKeysLoop_nodup g ret (st :: rest) _ [] (by simp)
  · intro st x
    rw [show executeFast g ret starts [st] = stepFrontier g ret st starts from rfl]
    exact stepFrontier_mem g ret st starts x

/-- A concrete store with parallel edges: node 2 is reachable from node 1
via two parallel edges of type 7 and from node 3 via one more. -/
def storeP : Store := ⟨[(1, "a"), (2, "b"), (3, "c")], 4, [], [(1, 7, 2), (1, 7, 2), (3, 7, 2)], []⟩

/-- C4 (witness): on the parallel-edge store, one out step from the
frontier [1, 3] yields node 2 exactly once. -/
theorem frontier_dedup_witness :
    (executeFast storeP (fun _ => 7) [1, 3] [⟨Dir.out, Option.none⟩]).Nodup ∧
    executeFast storeP (fun _ => 7) [1, 3] [⟨Dir.out, Option.none⟩] = [2] :=
  ⟨(frontier_dedup storeP (fun _ => 7) [1, 3] [] [⟨Dir.out, Option.none⟩]
      (by simp)).1, rfl⟩

-- ============================================================================
-- C5 — both is the union of out and in
-- ============================================================================

/-- The per-node both fetch of _execute_fast is duplicate-free. -/
theorem stepNeighbors_both_nodup (g : Store) (et : Option Nat) (n : Int) :
    (stepNeighbors g et .both n).Nodup := by
  simp [stepNeighbors, List.nodup_dedup]

/-- The resolved edge-type filter of a step does not depend on its
direction. -/
theorem stepEtype_indep (ret : EdgeDefM → Nat) (d d2 : Dir) (ed : Option EdgeDefM) :
    stepEtype ret ⟨d, ed⟩ = stepEtype ret ⟨d2, ed⟩ := rfl

/-- Batched out pairs project to the plain out ids. -/
theorem traverseOutWithKeys_fst (s : Store) (n0 : Int) (et : Option Nat) :
    (s.traverseOutWithKeys n0 et).map Prod.fst = s.traverseOut n0 et := by
  rw [Store.traverseOutWithKeys, List.map_map,
    show (Prod.fst ∘ fun nid => (nid, s.getNodeKey nid)) = (id : Int → Int) from rfl,
    List.map_id]

/-- Batched in pairs project to the plain in ids. -/
theorem traverseInWithKeys_fst (s : Store) (n0 : Int) (et : Option Nat) :
    (s.traverseInWithKeys n0 et).map Prod.fst = s.traverseIn n0 et := by
  rw [Store.traverseInWithKeys, List.map_map,
    show (Prod.fst ∘ fun nid => (nid, s.getNodeKey nid)) = (id : Int → Int) from rfl,
    List.map_id]

/-- Membership in the id-deduplicated pair list of the both branch of
_execute_fast_with_keys. -/
theorem bothPairsDedup_mem (l : List (Int × Option String)) :
    ∀ (seen : List Int) (x : Int),
    (x ∈ (bothPairsDedup l seen).map Prod.fst ↔ x ∈ l.map Prod.fst ∧ x ∉ seen) := by
  induction l with
  | nil =>
    intro seen x
    simp [bothPairsDedup]
  | cons b bs ih =>
    obtain ⟨nid, k⟩ := b
    intro seen x
    by_cases hb : nid ∈ seen
    · rw [show bothPairsDedup ((nid, k) :: bs) seen = bothPairsDedup bs seen from by
        simp only [bothPairsDedup, if_pos hb], ih seen x]
      simp only [List.map_cons, List.mem_cons]
      rcases eq_or_ne x nid with rfl | hxb <;> tauto
    · rw [show bothPairsDedup ((nid, k) :: bs) seen
          = (nid, k) :: bothPairsDedup bs (nid :: seen) from by
        simp only [bothPairsDedup, if_neg hb]]
      simp only [List.map_cons, List.mem_cons, ih (nid :: seen) x]
      rcases eq_or_ne x nid with rfl | hxb <;> tauto

/-- C5: a Both step on a single node is the set union of its out-neighbors
and in-neighbors — deduplicated before being merged into the next
frontier — in both fast executors; hence both(edge) from a start node
yields exactly the union of the result sets of out(edge) and in(edge). -/
theorem both_is_union (g : Store) (ret : EdgeDefM → Nat) (ed : Option EdgeDefM)
    (n : Int) (r : NodeRefM) :
    (∀ x : Int, x ∈ executeFast g ret [n] [⟨Dir.both, ed⟩] ↔
        (x ∈ executeFast g ret [n] [⟨Dir.out, ed⟩] ∨
         x ∈ executeFast g ret [n] [⟨Dir.inn, ed⟩])) ∧
    (stepNeighbors g (stepEtype ret ⟨Dir.both, ed⟩) .both n).Nodup ∧
    (∀ x : Int, x ∈ (executeFastWithKeys g ret [r] [⟨Dir.both, ed⟩]).map Prod.fst ↔
        (x ∈ (executeFastWithKeys g ret [r] [⟨Dir.out, ed⟩]).map Prod.fst ∨
         x ∈ (executeFastWithKeys g ret [r] [⟨Dir.inn, ed⟩]).map Prod.fst)) := by
  refine ⟨fun x => ?_, stepNeighbors_both_nodup g _ n, fun x => ?_⟩
  · rw [show executeFast g ret [n] [⟨Dir.both, ed⟩]
        = stepFrontier g ret ⟨Dir.both, ed⟩ [n] from rfl]
    rw [show executeFast g ret [n] [⟨Dir.out, ed⟩]
        = stepFrontier g ret ⟨Dir.out, ed⟩ [n] from rfl]
    rw [show executeFast g ret [n] [⟨Dir.inn, ed⟩]
        = stepFrontier g ret ⟨Dir.inn, ed⟩ [n] from rfl]
    rw [stepFrontier_mem, stepFrontier_mem, stepFrontier_mem]
    simp only [List.mem_singleton, exists_eq_left]
    rw [show stepNeighbors g (stepEtype ret ⟨Dir.both, ed⟩) (StepM.dir ⟨Dir.both, ed⟩) n
        = (g.traverseOut n (stepEtype ret ⟨Dir.both, ed⟩)
            ++ g.traverseIn n (stepEtype ret ⟨Dir.both, ed⟩)).dedup from rfl]
    rw [List.mem_dedup, List.mem_append]
    rw [show stepNeighbors g (stepEtype ret ⟨Dir.out, ed⟩) (StepM.dir ⟨Dir.out, ed⟩) n
        = g.traverseOut n (stepEtype ret ⟨Dir.out, ed⟩) from rfl]
    rw [show stepNeighbors g (stepEtype ret ⟨Dir.inn, ed⟩) (StepM.dir ⟨Dir.inn, ed⟩) n
        = g.traverseIn n (stepEtype ret ⟨Dir.inn, ed⟩) from rfl]
    rw [stepEtype_indep ret Dir.out Dir.both ed, stepEtype_indep ret Dir.inn Dir.both ed]
  · rw [show executeFastWithKeys g ret [r] [⟨Dir.both, ed⟩]
        = stepFrontierPairs g ret ⟨Dir.both, ed⟩ [r.id] from rfl]
    rw [show executeFastWithKeys g ret [r] [⟨Dir.out, ed⟩]
        = stepFrontierPairs g ret ⟨Dir.out, ed⟩ [r.id] from rfl]
    rw [show executeFastWithKeys g ret [r] [⟨Dir.inn, ed⟩]
        = stepFrontierPairs g ret ⟨Dir.inn, ed⟩ [r.id] from rfl]
    rw [stepFrontierPairs_mem, stepFrontierPairs_mem, stepFrontierPairs_mem]
    simp only [List.mem_singleton, exists_eq_left]
    rw [show stepPairs g (stepEtype ret ⟨Dir.both, ed⟩) (StepM.dir ⟨Dir.both, ed⟩) r.id
        = bothPairsDedup (g.traverseOutWithKeys r.id (stepEtype ret ⟨Dir.both, ed⟩)
            ++ g.traverseInWithKeys r.id (stepEtype ret ⟨Dir.both, ed⟩)) [] from rfl]
    rw [bothPairsDedup_mem]
    simp only [stepPairs, List.map_append, List.mem_append, List.not_mem_nil,
      not_false_iff, and_true, traverseOutWithKeys_fst, traverseInWithKeys_fst]
    rw [stepEtype_indep ret Dir.out Dir.both ed, stepEtype_indep ret Dir.inn Dir.both ed]

-- ============================================================================
-- C6 — zero-step traversal
-- ============================================================================

/-- Unfolding of _create_node_ref when the node type resolves. -/
theorem createNodeRef_some (g : Store) (gnd : Int → Option NodeDefM)
    (rpk : String → Nat) (ps : PropLoadStrategy) (nid : Int) (lp : Bool)
    (nd : NodeDefM) (hnd : gnd nid = some nd) :
    createNodeRef g gnd rpk ps nid lp
      = some ⟨nid, (g.getNodeKey nid).getD (defKey nid), nd,
          if lp then loadNodeProps g rpk ps nd nid else []⟩ := by
  simp [createNodeRef, hnd]

/-- The standard path preserves the surviving identifiers in order when
every node type resolves and no filter is set. -/
theorem filterMap_wrapStd_ids (g : Store) (gnd : Int → Option NodeDefM)
    (rpk : String → Nat) (ps : PropLoadStrategy) (lp : Bool) :
    ∀ l : List Int, (∀ nid ∈ l, (gnd nid).isSome = true) →
    (l.filterMap (wrapStd g gnd rpk ps lp Option.none)).map (fun n => n.id) = l := by
  intro l
  induction l with
  | nil =>
    intro _
    simp
  | cons nid rest ih =>
    intro h
    obtain ⟨nd, hnd⟩ := Option.isSome_iff_exists.mp (h nid (by simp))
    rw [List.filterMap_cons,
      show wrapStd g gnd rpk ps lp Option.none nid
        = some ⟨nid, (g.getNodeKey nid).getD (defKey nid), nd,
            if lp then loadNodeProps g rpk ps nd nid else []⟩ from by
        rw [wrapStd, createNodeRef_some g gnd rpk ps nid lp nd hnd]]
    rw [List.map_cons, ih (fun x hx => h x (by simp [hx]))]

/-- The ultra-fast path preserves the ids of the batched pairs in order
when every node type resolves. -/
theorem filterMap_wrapFast_ids (gnd : Int → Option NodeDefM)
    (l : List NodeRefM) (h : ∀ r ∈ l, (gnd r.id).isSome = true) :
    ((l.map (fun n => (n.id, n.key))).filterMap (wrapFast gnd)).map (fun n => n.id)
      = l.map (fun n => n.id) := by
  induction l with
  | nil => simp
  | cons r rest ih =>
    obtain ⟨nd, hnd⟩ := Option.isSome_iff_exists.mp (h r (by simp))
    rw [List.map_cons, List.filterMap_cons,
      show wrapFast gnd (r.id, r.key) = some ⟨r.id, r.key, nd, []⟩ from by
        rw [wrapFast]
        simp [hnd]]
    rw [List.map_cons, ih (fun x hx => h x (by simp [hx]))]
    rfl

/-- A node-type resolver that resolves nothing. -/
def gndNone : Int → Option NodeDefM := fun _ => Option.none

/-- C6 (counterexample): a zero-step to_list does not always return the
start handles unchanged — a start handle whose node type fails to resolve
is silently dropped by the handle-constructing terminal, so the result is
empty instead of the one start handle. -/
theorem zero_step_counterexample :
    executeToList store0 (fun _ => 7) rpk0 gndNone [refA] [] Option.none stratNone
      ≠ [refA] := by
  intro h
  rw [show executeToList store0 (fun _ => 7) rpk0 gndNone [refA] [] Option.none stratNone
      = [] from rfl] at h
  exact List.noConfusion h

/-- C6 (amended): a zero-step traversal leaves the frontier exactly the
start identifiers in order, for every load strategy: ids() returns the
start ids, the batched executor returns the start (id, key) pairs,
unfiltered count() returns the number of starts, and the
handle-constructing terminal returns handles with exactly the start ids
in order provided each start's node type resolves (a start whose type
does not resolve is silently excluded). -/
theorem zero_step_start_handles (g : Store) (ret : EdgeDefM → Nat)
    (rpk : String → Nat) (gnd : Int → Option NodeDefM) (starts : List NodeRefM)
    (ps : PropLoadStrategy)
    (hres : ∀ r ∈ starts, (gnd r.id).isSome = true) :
    executeIds g ret starts [] = starts.map (fun n => n.id) ∧
    executeFastWithKeys g ret starts [] = starts.map (fun n => (n.id, n.key)) ∧
    executeCount g ret rpk gnd starts [] Option.none ps = starts.length ∧
    (executeToList g ret rpk gnd starts [] Option.none ps).map (fun n => n.id)
        = starts.map (fun n => n.id) := by
  refine ⟨rfl, rfl, ?_, ?_⟩
  · simp [executeCount, executeFast]
  · by_cases hps : ps.needsAnyProps = true
    · have he : executeToList g ret rpk gnd starts [] Option.none ps
          = (starts.map (fun n => n.id)).filterMap
              (wrapStd g gnd rpk ps (ps.needsAnyProps || false) Option.none) := by
        dsimp only [executeToList, Option.isSome]
        rw [if_neg (by simp [hps]), executeFast_nil]
      rw [he]
      rw [filterMap_wrapStd_ids g gnd rpk ps _ (starts.map (fun n => n.id))
        (fun nid hnid => by
          obtain ⟨r, hr, hrid⟩ := List.mem_map.mp hnid
          exact hrid ▸ hres r hr)]
    · have hps2 : ps.needsAnyProps = false := Bool.eq_false_iff.mpr hps
      have he : executeToList g ret rpk gnd starts [] Option.none ps
          = (starts.map (fun n => (n.id, n.key))).filterMap (wrapFast gnd) := by
        dsimp only [executeToList, Option.isSome]
        rw [if_pos (by simp [hps2])]
        rfl
      rw [he]
      exact filterMap_wrapFast_ids gnd starts hres

/-- C6 (witness): the amended theorem at a concrete resolvable pair of
start handles under the load-all strategy. -/
theorem zero_step_start_handles_witness :
    (executeToList store0 (fun _ => 7) rpk0 (fun _ => some ndUser) [refA, refB] []
        Option.none stratAll).map (fun n => n.id) = [1, 2] := by
  have h := (zero_step_start_handles store0 (fun _ => 7) rpk0 (fun _ => some ndUser)
      [refA, refB] stratAll (by intro r _; rfl)).2.2.2
  rw [h]
  rfl

-- ============================================================================
-- C3 — transaction discipline of the mutation builders
-- ============================================================================

/-- The last element of a list extended by one element. -/
theorem getLast?_append_one {α : Type} (l : List α) (a : α) :
    (l ++ [a]).getLast? = some a := by
  rw [List.getLast?_append_cons]
  rfl

/-- A primitive engine call never touches the transaction snapshot. -/
theorem prim_snapshot {α : Type} (c : Call) (f : Store → Except Err (α × Store))
    (e : Engine) : ((prim c f e).2).snapshot = e.snapshot := by
  rw [prim]
  dsimp only [Engine.step]
  split
  · rfl
  · split <;> rfl

/-- Sequencing preserves the snapshot when both sides do. -/
theorem andThenE_snap {α β : Type} (x : Res α) (f : α → Engine → Res β)
    (hf : ∀ a e, ((f a e).2).snapshot = e.snapshot) :
    ((andThenE x f).2).snapshot = x.2.snapshot := by
  rcases x with ⟨r, e⟩
  cases r with
  | ok a => exact hf a e
  | error err => rfl

/-- A body preserves the transaction snapshot for every start state. -/
def SnapPres {α : Type} (body : Engine → Res α) : Prop :=
  ∀ e, ((body e).2).snapshot = e.snapshot

/-- The insert property loop preserves the snapshot. -/
theorem setInsertProps_snap (nd : NodeDefM) (rpk : String → Nat) (nodeId : Int) :
    ∀ (ps : RecordM) (e : Engine),
    ((setInsertProps nd rpk nodeId ps e).2).snapshot = e.snapshot := by
  intro ps
  induction ps with
  | nil =>
    intro e
    rfl
  | cons p rest ih =>
    obtain ⟨name, v⟩ := p
    intro e
    rw [setInsertProps]
    by_cases hv : v = PyVal.none
    · rw [if_pos hv]
      exact ih e
    · rw [if_neg hv]
      cases assocGet nd.props name with
      | none => exact ih e
      | some pt =>
        dsimp only
        cases toPropValue pt v with
        | error err => rfl
        | ok w =>
          dsimp only
          rw [andThenE_snap _ _ (fun a e2 => ih e2)]
          exact prim_snapshot _ _ e

/-- The per-record insert loop preserves the snapshot. -/
theorem insertLoop_snap (nd : NodeDefM) (rpk : String → Nat) :
    ∀ (data : List RecordM) (acc : List NodeRefM) (e : Engine),
    ((insertLoop nd rpk data acc e).2).snapshot = e.snapshot := by
  intro data
  induction data with
  | nil =>
    intro acc e
    rfl
  | cons item rest ih =>
    intro acc e
    rw [insertLoop]
    cases assocGet item "key" with
    | none => rfl
    | some keyArg =>
      dsimp only
      by_cases hk : keyArg = PyVal.none
      · rw [if_pos hk]
      · rw [if_neg hk]
        rw [andThenE_snap _ _ (fun nodeId e2 => by
          rw [andThenE_snap _ _ (fun a e3 => ih _ e3)]
          exact setInsertProps_snap nd rpk nodeId _ e2)]
        exact prim_snapshot _ _ e

/-- The update field loop preserves the snapshot. -/
theorem updateProps_snap (nd : NodeDefM) (rpk : String → Nat) (nodeId : Int) :
    ∀ (data : RecordM) (e : Engine),
    ((updateProps nd rpk nodeId data e).2).snapshot = e.snapshot := by
  intro data
  induction data with
  | nil =>
    intro e
    rfl
  | cons p rest ih =>
    obtain ⟨name, v⟩ := p
    intro e
    rw [updateProps]
    cases assocGet nd.props name with
    | none => exact ih e
    | some pt =>
      dsimp only
      by_cases hv : v = PyVal.none
      · rw [if_pos hv]
        rw [andThenE_snap _ _ (fun a e2 => ih e2)]
        exact prim_snapshot _ _ e
      · rw [if_neg hv]
        cases toPropValue pt v with
        | error err => rfl
        | ok w =>
          dsimp only
          rw [andThenE_snap _ _ (fun a e2 => ih e2)]
          exact prim_snapshot _ _ e

/-- The delete body preserves the snapshot. -/
theorem deleteBody_snap (nid : Int) : SnapPres (deleteBody nid) := by
  intro e
  rw [deleteBody]
  rw [andThenE_snap _ _ (fun a e2 => rfl)]
  exact prim_snapshot _ _ e

/-- The edge-property loop of create_link preserves the snapshot. -/
theorem setLinkProps_snap (ed : EdgeDefM) (rpk : String → Nat) (src : Int)
    (et : Nat) (dst : Int) : ∀ (ps : RecordM) (e : Engine),
    ((setLinkProps ed rpk src et dst ps e).2).snapshot = e.snapshot := by
  intro ps
  induction ps with
  | nil =>
    intro e
    rfl
  | cons p rest ih =>
    obtain ⟨name, v⟩ := p
    intro e
    rw [setLinkProps]
    by_cases hv : v = PyVal.none
    · rw [if_pos hv]
      exact ih e
    · rw [if_neg hv]
      cases assocGet ed.props name with
      | none => exact ih e
      | some pt =>
        dsimp only
        cases toPropValue pt v with
        | error err => rfl
        | ok w =>
          dsimp only
          rw [andThenE_snap _ _ (fun a e2 => ih e2)]
          exact prim_snapshot _ _ e

/-- The link body preserves the snapshot. -/
theorem linkBody_snap (ed : EdgeDefM) (rpk : String → Nat) (src : Int) (et : Nat)
    (dst : Int) (props : Option RecordM) :
    SnapPres (linkBody ed rpk src et dst props) := by
  intro e
  rw [linkBody]
  rw [andThenE_snap _ _ (fun a e2 => by
    cases props with
    | none => rfl
    | some ps =>
      dsimp only
      by_cases hp : ps = []
      · rw [if_pos hp]
      · rw [if_neg hp]
        exact setLinkProps_snap ed rpk src et dst ps e2)]
  exact prim_snapshot _ _ e

/-- The unlink body preserves the snapshot. -/
theorem unlinkBody_snap (src : Int) (et : Nat) (dst : Int) :
    SnapPres (unlinkBody src et dst) := by
  intro e
  rw [unlinkBody]
  rw [andThenE_snap _ _ (fun a e2 => rfl)]
  exact prim_snapshot _ _ e

/-- The edge-update field loop preserves the snapshot. -/
theorem updateEdgeProps_snap (ed : EdgeDefM) (rpk : String → Nat) (src : Int)
    (et : Nat) (dst : Int) : ∀ (data : RecordM) (e : Engine),
    ((updateEdgeProps ed rpk src et dst data e).2).snapshot = e.snapshot := by
  intro data
  induction data with
  | nil =>
    intro e
    rfl
  | cons p rest ih =>
    obtain ⟨name, v⟩ := p
    intro e
    rw [updateEdgeProps]
    cases assocGet ed.props name with
    | none => exact ih e
    | some pt =>
      dsimp only
      by_cases hv : v = PyVal.none
      · rw [if_pos hv]
        rw [andThenE_snap _ _ (fun a e2 => ih e2)]
        exact prim_snapshot _ _ e
      · rw [if_neg hv]
        cases toPropValue pt v with
        | error err => rfl
        | ok w =>
          dsimp only
          rw [andThenE_snap _ _ (fun a e2 => ih e2)]
          exact prim_snapshot _ _ e

/-- A failing commit leaves the snapshot in place (so the rollback that
follows can still restore it). -/
theorem commitTx_error_snapshot (e : Engine) (err : Err)
    (h : (commitTx e).1 = .error err) : ((commitTx e).2).snapshot = e.snapshot := by
  rw [commitTx] at h ⊢
  dsimp only [Engine.step] at h ⊢
  by_cases hf : e.failAt = some e.calls
  · rw [if_pos hf]
  · rw [if_neg hf] at h
    exact absurd h (by simp)

/-- A failing try block leaves the snapshot of its entry state in place,
provided the body does. -/
theorem tryBlock_error_snapshot {α : Type} (body : Engine → Res α)
    (hb : SnapPres body) (e : Engine) (err : Err)
    (he : (tryBlock body e).1 = .error err) :
    ((tryBlock body e).2).snapshot = e.snapshot := by
  rw [tryBlock] at he ⊢
  rcases h1 : body e with ⟨r1, e1⟩
  rw [h1] at he
  have hs1 : e1.snapshot = e.snapshot := by
    have h2 := hb e
    rw [h1] at h2
    exact h2
  cases r1 with
  | ok a =>
    dsimp only at he ⊢
    rcases h2 : commitTx e1 with ⟨r2, e2⟩
    rw [h2] at he
    cases r2 with
    | ok u =>
      dsimp only at he
      exact absurd he (by simp)
    | error err2 =>
      dsimp only at he ⊢
      have h3 := commitTx_error_snapshot e1 err2 (by rw [h2])
      rw [h2] at h3
      exact h3.trans hs1
  | error err1 =>
    dsimp only at he ⊢
    exact hs1

/-- Entering a transaction snapshots the current store. -/
theorem beginTx_snapshot (e : Engine) : (beginTx e).snapshot = some e.store := rfl

/-- The rollback discipline of withTxn: when the wrapped operation fails,
the store is restored to its pre-transaction state, the last engine call
is the rollback, and the failure returned is exactly the failure the try
block raised. -/
theorem withTxn_error {α : Type} (body : Engine → Res α) (hb : SnapPres body)
    (e : Engine) (err : Err) (he : (withTxn body e).1 = .error err) :
    ((withTxn body e).2).store = e.store ∧
    ((withTxn body e).2).trace.getLast? = some Call.rollback ∧
    (tryBlock body (beginTx e)).1 = .error err := by
  rw [withTxn] at he ⊢
  rcases h1 : tryBlock body (beginTx e) with ⟨r1, e1⟩
  rw [h1] at he
  cases r1 with
  | ok a =>
    dsimp only at he
    exact absurd he (by simp)
  | error err1 =>
    dsimp only at he ⊢
    injection he with herr
    subst herr
    have hsnap : e1.snapshot = some e.store := by
      have h3 := tryBlock_error_snapshot body hb (beginTx e) err1 (by rw [h1])
      rw [h1] at h3
      dsimp only at h3
      rw [h3, beginTx_snapshot]
    refine ⟨?_, ?_, ?_⟩
    · rw [rollbackTx]
      dsimp only [Engine.step]
      rw [hsnap]
      rfl
    · rw [rollbackTx]
      dsimp only [Engine.step]
      exact getLast?_append_one e1.trace Call.rollback
    · rfl

/-- The key-lookup engine call reads the store without changing it and
records exactly one call. -/
theorem getNodeByKeyE_store_trace (k : String) (e : Engine) :
    ((getNodeByKeyE k e).2).store = e.store ∧
    ((getNodeByKeyE k e).2).trace = e.trace ++ [Call.getNodeByKey k] := by
  rw [getNodeByKeyE, prim]
  dsimp only [Engine.step]
  by_cases hf : e.failAt = some e.calls
  · rw [if_pos hf]
    exact ⟨rfl, rfl⟩
  · rw [if_neg hf]
    dsimp only
    exact ⟨rfl, rfl⟩

/-- Selector resolution never mutates the store. -/
theorem resolveSelector_store (wi : Option Int) (wk : Option String) (e : Engine) :
    ((resolveSelector wi wk e).2).store = e.store := by
  rw [resolveSelector.eq_def]
  cases wi with
  | some i => rfl
  | none =>
    cases wk with
    | none => rfl
    | some k =>
      dsimp only
      by_cases hk : k = ""
      · rw [if_pos hk]
      · rw [if_neg hk]
        exact (getNodeByKeyE_store_trace k e).1

/-- Selector resolution never opens a transaction. -/
theorem resolveSelector_no_begin (wi : Option Int) (wk : Option String) (e : Engine) :
    Call.begin ∉ newTrace e ((resolveSelector wi wk e).2) := by
  rw [resolveSelector.eq_def]
  cases wi with
  | some i =>
    rw [newTrace, List.drop_length]
    exact List.not_mem_nil _
  | none =>
    cases wk with
    | none =>
      rw [newTrace, List.drop_length]
      exact List.not_mem_nil _
    | some k =>
      dsimp only
      by_cases hk : k = ""
      · rw [if_pos hk]
        rw [newTrace, List.drop_length]
        exact List.not_mem_nil _
      · rw [if_neg hk]
        rw [newTrace, (getNodeByKeyE_store_trace k e).2, List.drop_left]
        simp

/-- A raised error is exactly the error of the try block: withTxn never
replaces or swallows the failure. -/
theorem withTxn_error_iff {α : Type} (body : Engine → Res α) (e : Engine) (err : Err) :
    (withTxn body e).1 = .error err ↔ (tryBlock body (beginTx e)).1 = .error err := by
  rw [withTxn]
  rcases h1 : tryBlock body (beginTx e) with ⟨r1, e1⟩
  cases r1 <;> simp

/-- C3: every mutation builder — insert, update, update-by-handle, delete,
link, unlink and edge update — restores the pre-call store whenever it
raises, and whenever the failure arises after its transaction was opened
the last engine call is the rollback; and the failure raised is exactly
the failure of the try block, propagated unmodified.  (For the operations
that validate selectors before begin, the rollback conclusion is guarded
by the transaction having been opened; the others always open one.) -/
theorem mutation_rollback :
    (∀ (nd : NodeDefM) (rpk : String → Nat) (data : List RecordM) (e : Engine) (err : Err),
      (insertReturning nd rpk data e).1 = .error err →
        ((insertReturning nd rpk data e).2).store = e.store ∧
        ((insertReturning nd rpk data e).2).trace.getLast? = some Call.rollback) ∧
    (∀ (nd : NodeDefM) (rpk : String → Nat) (data : RecordM) (wi : Option Int)
        (wk : Option String) (e : Engine) (err : Err),
      (updateExecute nd rpk data wi wk e).1 = .error err →
        ((updateExecute nd rpk data wi wk e).2).store = e.store ∧
        (Call.begin ∈ newTrace e ((updateExecute nd rpk data wi wk e).2) →
          ((updateExecute nd rpk data wi wk e).2).trace.getLast? = some Call.rollback)) ∧
    (∀ (ref : NodeRefM) (rpk : String → Nat) (data : RecordM) (e : Engine) (err : Err),
      (updateByRefExecute ref rpk data e).1 = .error err →
        ((updateByRefExecute ref rpk data e).2).store = e.store ∧
        ((updateByRefExecute ref rpk data e).2).trace.getLast? = some Call.rollback) ∧
    (∀ (wi : Option Int) (wk : Option String) (e : Engine) (err : Err),
      (deleteExecute wi wk e).1 = .error err →
        ((deleteExecute wi wk e).2).store = e.store ∧
        (Call.begin ∈ newTrace e ((deleteExecute wi wk e).2) →
          ((deleteExecute wi wk e).2).trace.getLast? = some Call.rollback)) ∧
    (∀ (ed : EdgeDefM) (ret : EdgeDefM → Nat) (rpk : String → Nat) (srcId dstId : Int)
        (props : Option RecordM) (e : Engine) (err : Err),
      (createLink ed ret rpk srcId dstId props e).1 = .error err →
        ((createLink ed ret rpk srcId dstId props e).2).store = e.store ∧
        ((createLink ed ret rpk srcId dstId props e).2).trace.getLast? = some Call.rollback) ∧
    (∀ (ed : EdgeDefM) (ret : EdgeDefM → Nat) (srcId dstId : Int) (e : Engine) (err : Err),
      (deleteLink ed ret srcId dstId e).1 = .error err →
        ((deleteLink ed ret srcId dstId e).2).store = e.store ∧
        ((deleteLink ed ret srcId dstId e).2).trace.getLast? = some Call.rollback) ∧
    (∀ (ed : EdgeDefM) (ret : EdgeDefM → Nat) (rpk : String → Nat) (srcId dstId : Int)
        (data : RecordM) (e : Engine) (err : Err),
      (updateEdgeExecute ed ret rpk srcId dstId data e).1 = .error err →
        ((updateEdgeExecute ed ret rpk srcId dstId data e).2).store = e.store ∧
        ((updateEdgeExecute ed ret rpk srcId dstId data e).2).trace.getLast?
          = some Call.rollback) ∧
    (∀ (α : Type) (body : Engine → Res α) (e : Engine) (err : Err),
      (withTxn body e).1 = .error err ↔ (tryBlock body (beginTx e)).1 = .error err) := by
  refine ⟨?_, ?_, ?_, ?_, ?_, ?_, ?_, fun α body e err => withTxn_error_iff body e err⟩
  · intro nd rpk data e err he
    have h := withTxn_error (insertBody nd rpk data)
      (fun e2 => insertLoop_snap nd rpk data [] e2) e err he
    exact ⟨h.1, h.2.1⟩
  · intro nd rpk data wi wk e err he
    rw [updateExecute] at he ⊢
    by_cases h0 : wi = Option.none ∧ wk = Option.none
    · rw [if_pos h0] at he ⊢
      refine ⟨rfl, fun hmem => ?_⟩
      rw [newTrace, List.drop_length] at hmem
      exact absurd hmem (List.not_mem_nil _)
    · rw [if_neg h0] at he ⊢
      rcases h1 : resolveSelector wi wk e with ⟨r1, e2⟩
      rw [h1] at he
      have hst : e2.store = e.store := by
        have h2 := resolveSelector_store wi wk e
        rw [h1] at h2
        exact h2
      have hnb : Call.begin ∉ newTrace e e2 := by
        have h2 := resolveSelector_no_begin wi wk e
        rw [h1] at h2
        exact h2
      cases r1 with
      | error err1 =>
        dsimp only at he ⊢
        exact ⟨hst, fun hmem => absurd hmem hnb⟩
      | ok o =>
        cases o with
        | none =>
          dsimp only at he ⊢
          exact ⟨hst, fun hmem => absurd hmem hnb⟩
        | some nid =>
          dsimp only at he ⊢
          have h := withTxn_error (updateProps nd rpk nid data)
            (fun e3 => updateProps_snap nd rpk nid data e3) e2 err he
          exact ⟨h.1.trans hst, fun _ => h.2.1⟩
  · intro ref rpk data e err he
    have h := withTxn_error (updateProps ref.nodeDef rpk ref.id data)
      (fun e2 => updateProps_snap ref.nodeDef rpk ref.id data e2) e err he
    exact ⟨h.1, h.2.1⟩
  · intro wi wk e err he
    rw [deleteExecute] at he ⊢
    by_cases h0 : wi = Option.none ∧ wk = Option.none
    · rw [if_pos h0] at he ⊢
      refine ⟨rfl, fun hmem => ?_⟩
      rw [newTrace, List.drop_length] at hmem
      exact absurd hmem (List.not_mem_nil _)
    · rw [if_neg h0] at he ⊢
      rcases h1 : resolveSelector wi wk e with ⟨r1, e2⟩
      rw [h1] at he
      have hst : e2.store = e.store := by
        have h2 := resolveSelector_store wi wk e
        rw [h1] at h2
        exact h2
      have hnb : Call.begin ∉ newTrace e e2 := by
        have h2 := resolveSelector_no_begin wi wk e
        rw [h1] at h2
        exact h2
      cases r1 with
      | error err1 =>
        dsimp only at he ⊢
        exact ⟨hst, fun hmem => absurd hmem hnb⟩
      | ok o =>
        cases o with
        | none =>
          dsimp only at he
          exact absurd he (by simp)
        | some nid =>
          dsimp only at he ⊢
          rcases h2 : withTxn (deleteBody nid) e2 with ⟨r2, e3⟩
          rw [h2] at he
          cases r2 with
          | ok u =>
            dsimp only at he
            exact absurd he (by simp)
          | error err2 =>
            dsimp only at he ⊢
            have h := withTxn_error (deleteBody nid) (deleteBody_snap nid) e2 err2 (by rw [h2])
            rw [h2] at h
            exact ⟨h.1.trans hst, fun _ => h.2.1⟩
  · intro ed ret rpk srcId dstId props e err he
    have h := withTxn_error (linkBody ed rpk srcId (ret ed) dstId props)
      (linkBody_snap ed rpk srcId (ret ed) dstId props) e err he
    exact ⟨h.1, h.2.1⟩
  · intro ed ret srcId dstId e err he
    have h := withTxn_error (unlinkBody srcId (ret ed) dstId)
      (unlinkBody_snap srcId (ret ed) dstId) e err he
    exact ⟨h.1, h.2.1⟩
  · intro ed ret rpk srcId dstId data e err he
    have h := withTxn_error (updateEdgeProps ed rpk srcId (ret ed) dstId data)
      (fun e2 => updateEdgeProps_snap ed rpk srcId (ret ed) dstId data e2) e err he
    exact ⟨h.1, h.2.1⟩

/-- C3 (witness): inserting a record whose key collides with an existing
node fails with the engine's Conflict, and the store is rolled back to
its pre-call state. -/
theorem mutation_rollback_witness :
    (insertReturning ndUser rpk0 [[("key", PyVal.str "alice")]] eng0).1
      = .error (.conflict "user:alice") ∧
    (insertReturning ndUser rpk0 [[("key", PyVal.str "alice")]] eng0).2.store
      = eng0.store :=
  ⟨rfl,
   (mutation_rollback.1 ndUser rpk0 [[("key", PyVal.str "alice")]] eng0
      (.conflict "user:alice") rfl).1⟩

-- ============================================================================
-- C7 — update field semantics (null deletes, non-null overwrites)
-- ============================================================================

/-- Setting a key makes it present with the new value. -/
theorem keyedGet_keyedSet_same {κ ν : Type} [DecidableEq κ] (l : List (κ × ν))
    (k : κ) (v : ν) : keyedGet (keyedSet l k v) k = some v := by
  induction l with
  | nil => simp [keyedSet, keyedGet]
  | cons p rest ih =>
    obtain ⟨k0, v0⟩ := p
    rw [keyedSet]
    by_cases h0 : k0 = k
    · rw [if_pos h0, keyedGet, if_pos rfl]
    · rw [if_neg h0, keyedGet, if_neg h0]
      exact ih

/-- Setting a key leaves every other key unchanged. -/
theorem keyedGet_keyedSet_other {κ ν : Type} [DecidableEq κ] (l : List (κ × ν))
    (k k2 : κ) (v : ν) (h : k ≠ k2) :
    keyedGet (keyedSet l k v) k2 = keyedGet l k2 := by
  induction l with
  | nil => simp [keyedSet, keyedGet, h]
  | cons p rest ih =>
    obtain ⟨k0, v0⟩ := p
    rw [keyedSet]
    by_cases h0 : k0 = k
    · rw [if_pos h0, keyedGet, if_neg h, keyedGet, if_neg (h0 ▸ fun h2 => h h2)]
    · rw [if_neg h0, keyedGet, keyedGet]
      by_cases h2 : k0 = k2
      · rw [if_pos h2, if_pos h2]
      · rw [if_neg h2, if_neg h2]
        exact ih

/-- Deleting a key makes it absent. -/
theorem keyedGet_keyedDel_same {κ ν : Type} [DecidableEq κ] (l : List (κ × ν))
    (k : κ) : keyedGet (keyedDel l k) k = Option.none := by
  induction l with
  | nil => rfl
  | cons p rest ih =>
    obtain ⟨k0, v0⟩ := p
    rw [keyedDel] at ih ⊢
    rw [List.filter_cons]
    by_cases h0 : k0 = k
    · rw [if_neg (by simp [h0])]
      exact ih
    · rw [if_pos (by simp [h0])]
      rw [keyedGet, if_neg h0]
      exact ih

/-- Deleting a key leaves every other key unchanged. -/
theorem keyedGet_keyedDel_other {κ ν : Type} [DecidableEq κ] (l : List (κ × ν))
    (k k2 : κ) (h : k ≠ k2) :
    keyedGet (keyedDel l k) k2 = keyedGet l k2 := by
  induction l with
  | nil => rfl
  | cons p rest ih =>
    obtain ⟨k0, v0⟩ := p
    rw [keyedDel] at ih ⊢
    rw [List.filter_cons]
    by_cases h0 : k0 = k
    · subst h0
      rw [if_neg (by simp)]
      rw [keyedGet, if_neg (fun h2 => h h2)]
      exact ih
    · rw [if_pos (by simp [h0])]
      rw [keyedGet, keyedGet]
      by_cases h2 : k0 = k2
      · rw [if_pos h2, if_pos h2]
      · rw [if_neg h2, if_neg h2]
        exact ih

/-- set_node_prop stores the value under its (node, prop key) pair. -/
theorem getNodeProp_set_same (s : Store) (nid : Int) (k : Nat) (v : StoredVal) :
    (s.setNodeProp nid k v).getNodeProp nid k = some v :=
  keyedGet_keyedSet_same s.nodeProps (nid, k) v

/-- set_node_prop leaves other prop keys unchanged. -/
theorem getNodeProp_set_other (s : Store) (nid : Int) (k : Nat) (v : StoredVal)
    (n2 : Int) (k2 : Nat) (h : k ≠ k2) :
    (s.setNodeProp nid k v).getNodeProp n2 k2 = s.getNodeProp n2 k2 :=
  keyedGet_keyedSet_other s.nodeProps (nid, k) (n2, k2) v (by
    intro h2
    exact h (congrArg Prod.snd h2))

/-- delete_node_prop clears the value under its (node, prop key) pair. -/
theorem getNodeProp_del_same (s : Store) (nid : Int) (k : Nat) :
    (s.deleteNodeProp nid k).getNodeProp nid k = Option.none :=
  keyedGet_keyedDel_same s.nodeProps (nid, k)

/-- delete_node_prop leaves other prop keys unchanged. -/
theorem getNodeProp_del_other (s : Store) (nid : Int) (k : Nat)
    (n2 : Int) (k2 : Nat) (h : k ≠ k2) :
    (s.deleteNodeProp nid k).getNodeProp n2 k2 = s.getNodeProp n2 k2 :=
  keyedGet_keyedDel_other s.nodeProps (nid, k) (n2, k2) (by
    intro h2
    exact h (congrArg Prod.snd h2))

/-- Case analysis for a primitive whose store action always succeeds:
either the injected failure fires (call recorded, store untouched), or
the action applies. -/
theorem primPure_cases {α : Type} (c : Call) (g : Store → α × Store) (e : Engine) :
    prim c (fun s => .ok (g s)) e = (.error (.storage e.calls), e.step c) ∨
    prim c (fun s => .ok (g s)) e
      = (.ok (g e.store).1, { e.step c with store := (g e.store).2 }) := by
  rw [prim]
  by_cases hf : e.failAt = some e.calls
  · left
    rw [if_pos hf]
  · right
    rw [if_neg hf]

/-- The trace of a stepped engine. -/
theorem step_trace (e : Engine) (c : Call) : (e.step c).trace = e.trace ++ [c] := rfl

/-- The store of a stepped engine. -/
theorem step_store (e : Engine) (c : Call) : (e.step c).store = e.store := rfl

/-- Case analysis for the property-delete call: injected failure, or the
property is removed and the call recorded. -/
theorem deleteNodePropE_cases (nid : Int) (k : Nat) (e : Engine) :
    deleteNodePropE nid k e
        = (.error (.storage e.calls), e.step (Call.deleteNodeProp nid k)) ∨
    deleteNodePropE nid k e
        = (.ok (), { e.step (Call.deleteNodeProp nid k) with
            store := e.store.deleteNodeProp nid k }) :=
  primPure_cases (Call.deleteNodeProp nid k) (fun s => ((), s.deleteNodeProp nid k)) e

/-- Case analysis for the property-set call: injected failure, or the
property is written and the call recorded. -/
theorem setNodePropE_cases (nid : Int) (k : Nat) (v : StoredVal) (e : Engine) :
    setNodePropE nid k v e
        = (.error (.storage e.calls), e.step (Call.setNodeProp nid k)) ∨
    setNodePropE nid k v e
        = (.ok (), { e.step (Call.setNodeProp nid k) with
            store := e.store.setNodeProp nid k v }) :=
  primPure_cases (Call.setNodeProp nid k) (fun s => ((), s.setNodeProp nid k v)) e

/-- The update field loop never touches a property key outside the keys
of its fields. -/
theorem updateProps_other (nd : NodeDefM) (rpk : String → Nat) (nid : Int)
    (k2 : Nat) : ∀ (data : RecordM) (e : Engine), (∀ p ∈ data, rpk p.1 ≠ k2) →
    ∀ n2 : Int, ((updateProps nd rpk nid data e).2).store.getNodeProp n2 k2
        = e.store.getNodeProp n2 k2 := by
  intro data
  induction data with
  | nil =>
    intro e _ n2
    rfl
  | cons p rest ih =>
    obtain ⟨name, v⟩ := p
    intro e hne n2
    have hname : rpk name ≠ k2 := hne (name, v) (by simp)
    have hrest : ∀ p ∈ rest, rpk p.1 ≠ k2 := fun p hp => hne p (by simp [hp])
    rw [updateProps]
    cases assocGet nd.props name with
    | none => exact ih e hrest n2
    | some pt =>
      dsimp only
      by_cases hv : v = PyVal.none
      · rw [if_pos hv]
        rcases deleteNodePropE_cases nid (rpk name) e with h | h
        · rw [h]
          rfl
        · rw [h]
          dsimp only [andThenE]
          rw [ih _ hrest n2]
          exact getNodeProp_del_other e.store nid (rpk name) n2 k2 hname
      · rw [if_neg hv]
        cases toPropValue pt v with
        | error err => rfl
        | ok w =>
          dsimp only
          rcases setNodePropE_cases nid (rpk name) w e with h | h
          · rw [h]
            rfl
          · rw [h]
            dsimp only [andThenE]
            rw [ih _ hrest n2]
            exact getNodeProp_set_other e.store nid (rpk name) w n2 k2 hname

/-- The update field loop only appends to the call trace. -/
theorem updateProps_trace_pre (nd : NodeDefM) (rpk : String → Nat) (nid : Int) :
    ∀ (data : RecordM) (e : Engine),
    ∃ t, ((updateProps nd rpk nid data e).2).trace = e.trace ++ t := by
  intro data
  induction data with
  | nil =>
    intro e
    exact ⟨[], by simp [updateProps]⟩
  | cons p rest ih =>
    obtain ⟨name, v⟩ := p
    intro e
    rw [updateProps]
    cases assocGet nd.props name with
    | none => exact ih e
    | some pt =>
      dsimp only
      by_cases hv : v = PyVal.none
      · rw [if_pos hv]
        rcases deleteNodePropE_cases nid (rpk name) e with h | h
        · rw [h]
          exact ⟨[Call.deleteNodeProp nid (rpk name)], rfl⟩
        · rw [h]
          dsimp only [andThenE]
          obtain ⟨t, ht⟩ := ih { e.step (Call.deleteNodeProp nid (rpk name)) with
            store := e.store.deleteNodeProp nid (rpk name) }
          refine ⟨[Call.deleteNodeProp nid (rpk name)] ++ t, ?_⟩
          rw [ht]
          simp [Engine.step]
      · rw [if_neg hv]
        cases toPropValue pt v with
        | error err => exact ⟨[], by simp⟩
        | ok w =>
          dsimp only
          rcases setNodePropE_cases nid (rpk name) w e with h | h
          · rw [h]
            exact ⟨[Call.setNodeProp nid (rpk name)], rfl⟩
          · rw [h]
            dsimp only [andThenE]
            obtain ⟨t, ht⟩ := ih { e.step (Call.setNodeProp nid (rpk name)) with
              store := e.store.setNodeProp nid (rpk name) w }
            refine ⟨[Call.setNodeProp nid (rpk name)] ++ t, ?_⟩
            rw [ht]
            simp [Engine.step]

/-- Unfolding one successful head step of the update field loop: the field
is skipped (unknown name), deletes its property (null value), or
overwrites it (non-null value), and the loop continues on the rest. -/
theorem updateProps_cons_ok (nd : NodeDefM) (rpk : String → Nat) (nid : Int)
    (n0 : String) (v0 : PyVal) (rest : RecordM) (e : Engine)
    (hok : (updateProps nd rpk nid ((n0, v0) :: rest) e).1 = .ok ()) :
    ∃ e2, updateProps nd rpk nid ((n0, v0) :: rest) e = updateProps nd rpk nid rest e2 ∧
      ((assocGet nd.props n0 = Option.none ∧ e2 = e) ∨
       (v0 = PyVal.none ∧ (assocGet nd.props n0).isSome = true ∧
          e2.store = e.store.deleteNodeProp nid (rpk n0) ∧
          e2.trace = e.trace ++ [Call.deleteNodeProp nid (rpk n0)]) ∨
       (v0 ≠ PyVal.none ∧ ∃ pt0, assocGet nd.props n0 = some pt0 ∧
          ∃ w0, toPropValue pt0 v0 = .ok w0 ∧
          e2.store = e.store.setNodeProp nid (rpk n0) w0 ∧
          e2.trace = e.trace ++ [Call.setNodeProp nid (rpk n0)])) := by
  rw [updateProps] at hok ⊢
  cases hga : assocGet nd.props n0 with
  | none =>
    exact ⟨e, rfl, Or.inl ⟨rfl, rfl⟩⟩
  | some pt0 =>
    rw [hga] at hok
    dsimp only at hok ⊢
    by_cases hv0 : v0 = PyVal.none
    · rw [if_pos hv0] at hok ⊢
      rcases deleteNodePropE_cases nid (rpk n0) e with h | h
      · rw [h] at hok
        dsimp only [andThenE] at hok
        exact absurd hok (by simp)
      · rw [h] at hok ⊢
        dsimp only [andThenE] at hok ⊢
        exact ⟨_, rfl, Or.inr (Or.inl ⟨hv0, rfl, rfl, rfl⟩)⟩
    · rw [if_neg hv0] at hok ⊢
      cases htw : toPropValue pt0 v0 with
      | error err =>
        rw [htw] at hok
        dsimp only at hok
        exact absurd hok (by simp)
      | ok w0 =>
        rw [htw] at hok
        dsimp only at hok ⊢
        rcases setNodePropE_cases nid (rpk n0) w0 e with h | h
        · rw [h] at hok
          dsimp only [andThenE] at hok
          exact absurd hok (by simp)
        · rw [h] at hok ⊢
          dsimp only [andThenE] at hok ⊢
          exact ⟨_, rfl, Or.inr (Or.inr ⟨hv0, pt0, rfl, w0, htw, rfl, rfl⟩)⟩

/-- Field semantics of a successful run of the update field loop: for a
schema-declared field with pairwise-distinct resolved keys, a null value
leaves the property absent (a property-delete call was issued), and a
non-null value leaves it overwritten with its encoding (a property-set
call was issued). -/
theorem updateProps_field (nd : NodeDefM) (rpk : String → Nat) (nid : Int) :
    ∀ (data : RecordM) (e : Engine),
    (updateProps nd rpk nid data e).1 = .ok () →
    (∀ p ∈ data, ∀ q ∈ data, rpk p.1 = rpk q.1 → p.1 = q.1) →
    (data.map Prod.fst).Nodup →
    ∀ (name : String) (v : PyVal) (pt : PropType),
      (name, v) ∈ data → assocGet nd.props name = some pt →
      ((v = PyVal.none →
          ((updateProps nd rpk nid data e).2).store.getNodeProp nid (rpk name)
              = Option.none ∧
          Call.deleteNodeProp nid (rpk name) ∈ ((updateProps nd rpk nid data e).2).trace) ∧
       (v ≠ PyVal.none →
          ∃ w, toPropValue pt v = .ok w ∧
            ((updateProps nd rpk nid data e).2).store.getNodeProp nid (rpk name) = some w ∧
            Call.setNodeProp nid (rpk name) ∈ ((updateProps nd rpk nid data e).2).trace)) := by
  intro data
  induction data with
  | nil =>
    intro e _ _ _ name v pt hmem _
    exact absurd hmem (List.not_mem_nil _)
  | cons p rest ih =>
    obtain ⟨n0, v0⟩ := p
    intro e hok hinj hnd name v pt hmem hdecl
    have hnd2 : (rest.map Prod.fst).Nodup := (List.nodup_cons.mp hnd).2
    have hn0 : n0 ∉ rest.map Prod.fst := (List.nodup_cons.mp hnd).1
    have hinj2 : ∀ p ∈ rest, ∀ q ∈ rest, rpk p.1 = rpk q.1 → p.1 = q.1 :=
      fun p hp q hq => hinj p (by simp [hp]) q (by simp [hq])
    obtain ⟨e2, hstep, hcases⟩ := updateProps_cons_ok nd rpk nid n0 v0 rest e hok
    rw [hstep] at hok ⊢
    rcases List.mem_cons.mp hmem with heq | hmem2
    · rw [Prod.mk.injEq] at heq
      obtain ⟨rfl, rfl⟩ := heq
      have hner : ∀ p ∈ rest, rpk p.1 ≠ rpk name := by
        intro p hp hrpk
        have hp1 : p.1 = name := hinj p (by simp [hp]) (name, v) (by simp) hrpk
        exact hn0 (hp1 ▸ List.mem_map_of_mem Prod.fst hp)
      constructor
      · intro hveq
        rcases hcases with ⟨hga, _⟩ | ⟨_, _, hst, htr⟩ | ⟨hv0, _⟩
        · rw [hdecl] at hga
          exact absurd hga (by simp)
        · refine ⟨?_, ?_⟩
          · rw [updateProps_other nd rpk nid (rpk name) rest e2 hner nid, hst,
              getNodeProp_del_same]
          · obtain ⟨t, ht⟩ := updateProps_trace_pre nd rpk nid rest e2
            rw [ht, htr]
            simp
        · exact absurd hveq hv0
      · intro hvne
        rcases hcases with ⟨hga, _⟩ | ⟨hv0, _⟩ | ⟨_, pt0, hga, w0, htw, hst, htr⟩
        · rw [hdecl] at hga
          exact absurd hga (by simp)
        · exact absurd hv0 hvne
        · rw [hdecl] at hga
          obtain rfl : pt0 = pt := (Option.some.inj hga).symm
          refine ⟨w0, htw, ?_, ?_⟩
          · rw [updateProps_other nd rpk nid (rpk name) rest e2 hner nid, hst,
              getNodeProp_set_same]
          · obtain ⟨t, ht⟩ := updateProps_trace_pre nd rpk nid rest e2
            rw [ht, htr]
            simp
    · exact ih e2 hok hinj2 hnd2 name v pt hmem2 hdecl

/-- A successful try block is the body followed by a successful commit:
the committed store is the body's store and the trace gains the commit. -/
theorem tryBlock_ok {α : Type} (body : Engine → Res α) (e : Engine) (a : α)
    (h : (tryBlock body e).1 = .ok a) :
    ∃ eb, body e = (.ok a, eb) ∧
      ((tryBlock body e).2).store = eb.store ∧
      ((tryBlock body e).2).trace = eb.trace ++ [Call.commit] := by
  rw [tryBlock] at h ⊢
  rcases h1 : body e with ⟨r1, e1⟩
  rw [h1] at h
  cases r1 with
  | error err1 =>
    dsimp only at h
    exact absurd h (by simp)
  | ok a1 =>
    dsimp only at h ⊢
    rw [commitTx] at h ⊢
    dsimp only [Engine.step] at h ⊢
    by_cases hf : e1.failAt = some e1.calls
    · rw [if_pos hf] at h
      exact absurd h (by simp)
    · rw [if_neg hf] at h ⊢
      dsimp only at h ⊢
      obtain rfl : a1 = a := Except.ok.inj h
      exact ⟨e1, rfl, rfl, rfl⟩

/-- A successful transaction is begin, the body, and a successful commit. -/
theorem withTxn_ok {α : Type} (body : Engine → Res α) (e : Engine) (a : α)
    (h : (withTxn body e).1 = .ok a) :
    ∃ eb, body (beginTx e) = (.ok a, eb) ∧
      ((withTxn body e).2).store = eb.store ∧
      ((withTxn body e).2).trace = eb.trace ++ [Call.commit] := by
  rw [withTxn] at h ⊢
  rcases h1 : tryBlock body (beginTx e) with ⟨r1, e1⟩
  rw [h1] at h
  cases r1 with
  | error err1 =>
    dsimp only at h
    exact absurd h (by simp)
  | ok a1 =>
    dsimp only at h ⊢
    obtain rfl : a1 = a := Except.ok.inj h
    obtain ⟨eb, hb, hst, htr⟩ := tryBlock_ok body (beginTx e) a1 (by rw [h1])
    rw [h1] at hst htr
    exact ⟨eb, hb, hst, htr⟩

/-- Case analysis for the key-lookup call: injected failure, or the key
is looked up without changing the store. -/
theorem getNodeByKeyE_cases (key : String) (e : Engine) :
    getNodeByKeyE key e
        = (.error (.storage e.calls), e.step (Call.getNodeByKey key)) ∨
    getNodeByKeyE key e
        = (.ok (e.store.getNodeByKey key),
           { e.step (Call.getNodeByKey key) with store := e.store }) :=
  primPure_cases (Call.getNodeByKey key) (fun s => (s.getNodeByKey key, s)) e

/-- The field-level conclusions of C7 about the result of one update
operation: every schema-declared field with a null value ends absent with
a property-delete call issued, and every one with a non-null value ends
overwritten with its encoding with a property-set call issued. -/
def UpdateFieldSpec (nd : NodeDefM) (rpk : String → Nat) (nid : Int)
    (data : RecordM) (res : Res Unit) : Prop :=
  ∀ (name : String) (v : PyVal) (pt : PropType),
    (name, v) ∈ data → assocGet nd.props name = some pt →
    ((v = PyVal.none →
        (res.2).store.getNodeProp nid (rpk name) = Option.none ∧
        Call.deleteNodeProp nid (rpk name) ∈ (res.2).trace) ∧
     (v ≠ PyVal.none →
        ∃ w, toPropValue pt v = .ok w ∧
          (res.2).store.getNodeProp nid (rpk name) = some w ∧
          Call.setNodeProp nid (rpk name) ∈ (res.2).trace))

/-- Transport of the field conclusions from the transaction body's end
state to an operation result whose store equals it and whose trace
extends it. -/
theorem updateFieldSpec_of_body (nd : NodeDefM) (rpk : String → Nat) (nid : Int)
    (data : RecordM) (eb : Engine) (res : Res Unit)
    (hst : (res.2).store = eb.store) (htr : ∃ t, (res.2).trace = eb.trace ++ t)
    (hinj : ∀ p ∈ data, ∀ q ∈ data, rpk p.1 = rpk q.1 → p.1 = q.1)
    (hnd : (data.map Prod.fst).Nodup)
    (e0 : Engine) (hb : updateProps nd rpk nid data e0 = (.ok (), eb)) :
    UpdateFieldSpec nd rpk nid data res := by
  intro name v pt hmem hdecl
  obtain ⟨t, htr⟩ := htr
  have hf := updateProps_field nd rpk nid data e0 (by rw [hb]) hinj hnd name v pt hmem hdecl
  rw [hb] at hf
  dsimp only at hf
  constructor
  · intro hveq
    obtain ⟨hstv, htrv⟩ := hf.1 hveq
    refine ⟨?_, ?_⟩
    · rw [hst]
      exact hstv
    · rw [htr]
      exact List.mem_append_left t htrv
  · intro hvne
    obtain ⟨w, hw, hstv, htrv⟩ := hf.2 hvne
    refine ⟨w, hw, ?_, ?_⟩
    · rw [hst]
      exact hstv
    · rw [htr]
      exact List.mem_append_left t htrv

/-- C7: for update by id, update by key, and update by handle, and for
every schema-declared field of the update data (with pairwise-distinct
resolved property keys, as Python dict keys are): a null value deletes
the property — a property-delete call is issued and the property ends
absent — and a non-null value overwrites it — a property-set call is
issued and the property ends at the encoded value. -/
theorem update_null_deletes (nd : NodeDefM) (rpk : String → Nat) (data : RecordM)
    (hinj : ∀ p ∈ data, ∀ q ∈ data, rpk p.1 = rpk q.1 → p.1 = q.1)
    (hnd : (data.map Prod.fst).Nodup) :
    (∀ (nid : Int) (wk : Option String) (e : Engine),
      (updateExecute nd rpk data (some nid) wk e).1 = .ok () →
      UpdateFieldSpec nd rpk nid data (updateExecute nd rpk data (some nid) wk e)) ∧
    (∀ (key : String) (nid : Int) (e : Engine), key ≠ "" →
      e.store.getNodeByKey key = some nid →
      (updateExecute nd rpk data Option.none (some key) e).1 = .ok () →
      UpdateFieldSpec nd rpk nid data (updateExecute nd rpk data Option.none (some key) e)) ∧
    (∀ (ref : NodeRefM) (e : Engine), ref.nodeDef = nd →
      (updateByRefExecute ref rpk data e).1 = .ok () →
      UpdateFieldSpec nd rpk ref.id data (updateByRefExecute ref rpk data e)) := by
  refine ⟨?_, ?_, ?_⟩
  · intro nid wk e hok
    have hw : updateExecute nd rpk data (some nid) wk e
        = withTxn (updateProps nd rpk nid data) e := by
      rw [updateExecute]
      rw [if_neg (by simp)]
      rfl
    rw [hw] at hok ⊢
    obtain ⟨eb, hb, hst, htr⟩ := withTxn_ok (updateProps nd rpk nid data) e () hok
    exact updateFieldSpec_of_body nd rpk nid data eb _ hst ⟨[Call.commit], htr⟩
      hinj hnd (beginTx e) hb
  · intro key nid e hkey hres hok
    rw [updateExecute] at hok ⊢
    rw [if_neg (by simp)] at hok ⊢
    rw [show resolveSelector Option.none (some key) e = getNodeByKeyE key e from by
      rw [resolveSelector.eq_def]
      dsimp only
      rw [if_neg hkey]] at hok ⊢
    rcases getNodeByKeyE_cases key e with h | h
    · rw [h] at hok
      dsimp only at hok
      exact absurd hok (by simp)
    · rw [h] at hok ⊢
      rw [hres] at hok ⊢
      dsimp only at hok ⊢
      obtain ⟨eb, hb, hst, htr⟩ := withTxn_ok (updateProps nd rpk nid data) _ () hok
      exact updateFieldSpec_of_body nd rpk nid data eb _ hst ⟨[Call.commit], htr⟩
        hinj hnd _ hb
  · intro ref e hndq hok
    obtain ⟨eb, hb, hst, htr⟩ := withTxn_ok (updateProps ref.nodeDef rpk ref.id data) e () hok
    rw [hndq] at hb
    exact updateFieldSpec_of_body nd rpk ref.id data eb _ hst ⟨[Call.commit], htr⟩
      hinj hnd (beginTx e) hb

/-- A concrete engine whose node 1 already has the name property set
(property key 4 under the length-based resolver). -/
def eng1 : Engine :=
  ⟨{ store0 with nodeProps := [((1, 4), StoredVal.str "Alice")] },
   Option.none, Option.none, 0, []⟩

/-- C7 (witness): updating node 1 with name = null and age = 31 succeeds,
the previously-set name property ends absent, and age ends at 31. -/
theorem update_null_deletes_witness :
    (updateExecute ndUser rpk0 [("name", PyVal.none), ("age", PyVal.int 31)]
        (some 1) Option.none eng1).1 = .ok () ∧
    ((updateExecute ndUser rpk0 [("name", PyVal.none), ("age", PyVal.int 31)]
        (some 1) Option.none eng1).2).store.getNodeProp 1 (rpk0 "name")
      = Option.none ∧
    ((updateExecute ndUser rpk0 [("name", PyVal.none), ("age", PyVal.int 31)]
        (some 1) Option.none eng1).2).store.getNodeProp 1 (rpk0 "age")
      = some (StoredVal.int 31) := by
  have hspec := (update_null_deletes ndUser rpk0
      [("name", PyVal.none), ("age", PyVal.int 31)]
      (by decide) (by decide)).1 1 Option.none eng1 rfl
  refine ⟨rfl, ?_, ?_⟩
  · exact ((hspec "name" PyVal.none PropType.string (by simp) rfl).1 rfl).1
  · obtain ⟨w, hw, hst, -⟩ :=
      (hspec "age" (PyVal.int 31) PropType.int (by simp) rfl).2 (by simp)
    have hw2 : w = StoredVal.int 31 := by
      rw [show toPropValue PropType.int (PyVal.int 31) = .ok (StoredVal.int 31)
        from rfl] at hw
      exact (Except.ok.inj hw).symm
    rw [← hw2]
    exact hst

end RayDb
